import Mathlib

/-!
Verification development for the pivot-pdf library (Rust).

This file gives a shallow embedding, in Lean 4, of the parts of the
pivot-pdf source that the verified properties talk about:

* the decimal formatting helpers `format_real` (src/pdf-core/src/writer.rs)
  and `format_coord` (src/pdf-core/src/document.rs) — modelled over `ℚ`
  (every finite f64 is a dyadic rational, and Rust's fixed-precision
  formatting is correctly rounded with ties to even);
* the builtin font metrics (src/pdf-core/src/fonts.rs);
* the word-breaking algorithm `break_word` and text-flow layout
  (src/pdf-core/src/textflow.rs);
* the table row engine (src/pdf-core/src/tables.rs);
* the low-level object writer with xref bookkeeping
  (src/pdf-core/src/writer.rs);
* the document assembler (src/pdf-core/src/document.rs).

Byte strings are modelled as `List Char` (all structural output of the
writer is ASCII; payload bytes are carried opaquely).  All loops are
written with explicit structural recursion (fuel where the Rust loop is
not structural) so that every definition evaluates by `decide`/`rfl`.
-/

namespace PivotPdf

/-! ## Decimal rendering (Rust `format!` machinery, the exact fragment used) -/

/-- The ASCII digit character for a value 0..9 (values ≥ 9 clamp to '9'). -/
def digitChar : ℕ → Char
  | 0 => '0'
  | 1 => '1'
  | 2 => '2'
  | 3 => '3'
  | 4 => '4'
  | 5 => '5'
  | 6 => '6'
  | 7 => '7'
  | 8 => '8'
  | _ => '9'

/-- Fueled decimal rendering of a natural number, most significant digit
first.  `fuel` bounds the number of digits produced. -/
def renderNatAux : ℕ → ℕ → List Char
  | 0, _ => []
  | fuel + 1, n =>
    if n < 10 then [digitChar n]
    else renderNatAux fuel (n / 10) ++ [digitChar (n % 10)]

/-- Decimal rendering of a natural number (`n.to_string()` in Rust). -/
def renderNat (n : ℕ) : List Char := renderNatAux (n + 1) n

/-- Decimal rendering of an integer (`i.to_string()` in Rust). -/
def renderInt (i : ℤ) : List Char :=
  if i < 0 then '-' :: renderNat i.natAbs else renderNat i.natAbs

/-- Numeric value of an ASCII digit character. -/
def digitVal (c : Char) : ℕ := c.toNat - 48

/-- Read a digit string back as a natural number (big-endian fold). -/
def parseNatAux : List Char → ℕ → ℕ
  | [], acc => acc
  | c :: cs, acc => parseNatAux cs (acc * 10 + digitVal c)

/-- Interpret a decimal digit string as a natural number. -/
def parseNat (cs : List Char) : ℕ := parseNatAux cs 0

/-- Left-pad a digit string with '0' up to width `k`
(Rust's `{:0k}` format specifier). -/
def padZeros (k : ℕ) (ds : List Char) : List Char :=
  List.replicate (k - ds.length) '0' ++ ds

/-- Round a rational to the nearest integer, ties to even — the rounding
Rust's float formatting applies at a requested precision. -/
def roundHalfEven (x : ℚ) : ℤ :=
  if x - (⌊x⌋ : ℚ) < 1/2 then ⌊x⌋
  else if 1/2 < x - (⌊x⌋ : ℚ) then ⌊x⌋ + 1
  else if Even ⌊x⌋ then ⌊x⌋ else ⌊x⌋ + 1

/-- Magnitude of `q` scaled by `10^prec` and correctly rounded. -/
def fixedScaled (prec : ℕ) (q : ℚ) : ℕ :=
  (roundHalfEven (q * (10 : ℚ) ^ prec)).natAbs

/-- Sign prefix of a formatted rational. -/
def signPart (q : ℚ) : List Char := if q < 0 then ['-'] else []

/-- Fixed-precision decimal rendering: `format!("{:.prec}", q)` for the
exact value `q`.  The sign comes from the value, the magnitude is the
correctly rounded multiple of `10^-prec`. -/
def fixedRender (prec : ℕ) (q : ℚ) : List Char :=
  if prec = 0 then signPart q ++ renderNat (fixedScaled prec q / 10 ^ prec)
  else
    signPart q ++ renderNat (fixedScaled prec q / 10 ^ prec) ++
      '.' :: padZeros prec (renderNat (fixedScaled prec q % 10 ^ prec))

/-- Remove every trailing occurrence of `c`
(Rust `str::trim_end_matches` with a char pattern). -/
def trimTrailing (c : Char) (xs : List Char) : List Char :=
  (xs.reverse.dropWhile (· = c)).reverse

/-- `format_real` from src/pdf-core/src/writer.rs: floats destined for PDF
`Real` objects.  Integer-valued floats below 1e15 print as `N.0`
(`{:.1}`); everything else prints with 6 decimals, then trailing zeros
and a trailing dot are trimmed. -/
def formatReal (q : ℚ) : List Char :=
  if q = (⌊q⌋ : ℚ) ∧ |q| < 10 ^ 15 then fixedRender 1 q
  else trimTrailing '.' (trimTrailing '0' (fixedRender 6 q))

/-- `format_coord` from src/pdf-core/src/document.rs: content-stream
coordinates.  Integer-valued floats below 1e15 print with no decimal
point (`v as i64`); everything else prints with 4 decimals, trimmed. -/
def formatCoord (q : ℚ) : List Char :=
  if q = (⌊q⌋ : ℚ) ∧ |q| < 10 ^ 15 then renderInt ⌊q⌋
  else trimTrailing '.' (trimTrailing '0' (fixedRender 4 q))

/-! ## Builtin font metrics (src/pdf-core/src/fonts.rs) -/

/-- The 14 standard PDF fonts. -/
inductive BuiltinFont where
  | helvetica | helveticaBold | helveticaOblique | helveticaBoldOblique
  | timesRoman | timesBold | timesItalic | timesBoldItalic
  | courier | courierBold | courierOblique | courierBoldOblique
  | symbol | zapfDingbats
  deriving DecidableEq, Repr

/-- PDF resource name (`F1`..`F14`), fixed by variant order. -/
def BuiltinFont.pdfName : BuiltinFont → String
  | .helvetica => "F1"
  | .helveticaBold => "F2"
  | .helveticaOblique => "F3"
  | .helveticaBoldOblique => "F4"
  | .timesRoman => "F5"
  | .timesBold => "F6"
  | .timesItalic => "F7"
  | .timesBoldItalic => "F8"
  | .courier => "F9"
  | .courierBold => "F10"
  | .courierOblique => "F11"
  | .courierBoldOblique => "F12"
  | .symbol => "F13"
  | .zapfDingbats => "F14"

/-- PDF BaseFont name. -/
def BuiltinFont.pdfBaseName : BuiltinFont → String
  | .helvetica => "Helvetica"
  | .helveticaBold => "Helvetica-Bold"
  | .helveticaOblique => "Helvetica-Oblique"
  | .helveticaBoldOblique => "Helvetica-BoldOblique"
  | .timesRoman => "Times-Roman"
  | .timesBold => "Times-Bold"
  | .timesItalic => "Times-Italic"
  | .timesBoldItalic => "Times-BoldItalic"
  | .courier => "Courier"
  | .courierBold => "Courier-Bold"
  | .courierOblique => "Courier-Oblique"
  | .courierBoldOblique => "Courier-BoldOblique"
  | .symbol => "Symbol"
  | .zapfDingbats => "ZapfDingbats"

/-- Key for ordering builtin fonts in sets (the Rust `Ord` derive follows
variant order). -/
def BuiltinFont.toIdx : BuiltinFont → ℕ
  | .helvetica => 0
  | .helveticaBold => 1
  | .helveticaOblique => 2
  | .helveticaBoldOblique => 3
  | .timesRoman => 4
  | .timesBold => 5
  | .timesItalic => 6
  | .timesBoldItalic => 7
  | .courier => 8
  | .courierBold => 9
  | .courierOblique => 10
  | .courierBoldOblique => 11
  | .symbol => 12
  | .zapfDingbats => 13

/-- `HELVETICA_WIDTHS` (Adobe AFM data, ASCII 32..=126, 1/1000 em). -/
def helveticaWidths : List ℕ :=
  [278, 278, 355, 556, 556, 889, 667, 191, 333, 333, 389, 584, 278, 333, 278, 278,
   556, 556, 556, 556, 556, 556, 556, 556, 556, 556, 278, 278, 584, 584, 584, 556,
   1015, 667, 667, 722, 722, 667, 611, 778, 722, 278, 500, 667, 556, 833, 722, 778,
   667, 778, 722, 667, 611, 722, 667, 944, 667, 667, 611, 278, 278, 278, 469, 556,
   333, 556, 556, 500, 556, 556, 278, 556, 556, 222, 222, 500, 222, 833, 556, 556,
   556, 556, 333, 500, 278, 556, 500, 722, 500, 500, 500, 334, 260, 334, 584]

/-- `HELVETICA_BOLD_WIDTHS`. -/
def helveticaBoldWidths : List ℕ :=
  [278, 333, 474, 556, 556, 889, 722, 238, 333, 333, 389, 584, 278, 333, 278, 278,
   556, 556, 556, 556, 556, 556, 556, 556, 556, 556, 333, 333, 584, 584, 584, 611,
   975, 722, 722, 722, 722, 667, 611, 778, 722, 278, 556, 722, 611, 833, 722, 778,
   667, 778, 722, 667, 611, 722, 667, 944, 667, 667, 611, 333, 278, 333, 584, 556,
   333, 556, 611, 556, 611, 556, 333, 611, 611, 278, 278, 556, 278, 889, 611, 611,
   611, 611, 389, 556, 333, 611, 556, 778, 556, 556, 500, 389, 280, 389, 584]

/-- `TIMES_ROMAN_WIDTHS`. -/
def timesRomanWidths : List ℕ :=
  [250, 333, 408, 500, 500, 833, 778, 180, 333, 333, 500, 564, 250, 333, 250, 278,
   500, 500, 500, 500, 500, 500, 500, 500, 500, 500, 278, 278, 564, 564, 564, 444,
   921, 722, 667, 667, 722, 611, 556, 722, 722, 333, 389, 722, 611, 889, 722, 722,
   556, 722, 667, 556, 611, 722, 722, 944, 722, 722, 611, 333, 278, 333, 469, 500,
   333, 444, 500, 444, 500, 444, 333, 500, 500, 278, 278, 500, 278, 778, 500, 500,
   500, 500, 333, 389, 278, 500, 500, 722, 500, 500, 444, 480, 200, 480, 541]

/-- `TIMES_BOLD_WIDTHS`. -/
def timesBoldWidths : List ℕ :=
  [250, 333, 555, 500, 500, 1000, 833, 278, 333, 333, 500, 570, 250, 333, 250, 278,
   500, 500, 500, 500, 500, 500, 500, 500, 500, 500, 333, 333, 570, 570, 570, 500,
   930, 722, 667, 722, 722, 667, 611, 778, 778, 389, 500, 778, 667, 944, 722, 778,
   611, 778, 722, 556, 667, 722, 722, 1000, 722, 722, 667, 333, 278, 333, 581, 500,
   333, 500, 556, 444, 556, 444, 333, 500, 556, 278, 333, 556, 278, 833, 556, 500,
   556, 556, 444, 389, 333, 556, 500, 722, 500, 500, 444, 394, 220, 394, 520]

/-- `TIMES_ITALIC_WIDTHS`. -/
def timesItalicWidths : List ℕ :=
  [250, 333, 420, 500, 500, 833, 778, 214, 333, 333, 500, 675, 250, 333, 250, 278,
   500, 500, 500, 500, 500, 500, 500, 500, 500, 500, 333, 333, 675, 675, 675, 500,
   920, 611, 611, 667, 722, 611, 611, 722, 722, 333, 444, 667, 556, 833, 667, 722,
   611, 722, 611, 500, 556, 722, 611, 833, 611, 556, 556, 389, 278, 389, 422, 500,
   333, 500, 500, 444, 500, 444, 278, 500, 500, 278, 278, 444, 278, 722, 500, 500,
   500, 500, 389, 389, 278, 500, 444, 667, 444, 444, 389, 400, 275, 400, 541]

/-- `TIMES_BOLD_ITALIC_WIDTHS`. -/
def timesBoldItalicWidths : List ℕ :=
  [250, 389, 555, 500, 500, 833, 778, 278, 333, 333, 500, 570, 250, 333, 250, 278,
   500, 500, 500, 500, 500, 500, 500, 500, 500, 500, 333, 333, 570, 570, 570, 500,
   832, 667, 667, 667, 722, 667, 667, 722, 778, 389, 500, 667, 611, 889, 722, 722,
   611, 722, 667, 556, 611, 722, 667, 889, 667, 611, 611, 333, 278, 333, 570, 500,
   333, 500, 500, 444, 500, 444, 333, 500, 556, 278, 278, 500, 278, 778, 556, 500,
   556, 556, 389, 389, 278, 556, 444, 667, 500, 444, 389, 348, 220, 348, 570]

/-- Uniform Courier advance. -/
def courierWidth : ℕ := 600

/-- Default width for unmapped codepoints. -/
def defaultWidth : ℕ := 278

/-- `FontMetrics::char_width`: width of a character in 1/1000 em. -/
def charWidth (font : BuiltinFont) (ch : Char) : ℕ :=
  match font with
  | .courier | .courierBold | .courierOblique | .courierBoldOblique => courierWidth
  | .symbol | .zapfDingbats => defaultWidth
  | _ =>
    if ch.toNat < 32 ∨ 126 < ch.toNat then defaultWidth
    else
      match font with
      | .helvetica | .helveticaOblique => helveticaWidths.getD (ch.toNat - 32) defaultWidth
      | .helveticaBold | .helveticaBoldOblique =>
          helveticaBoldWidths.getD (ch.toNat - 32) defaultWidth
      | .timesRoman => timesRomanWidths.getD (ch.toNat - 32) defaultWidth
      | .timesBold => timesBoldWidths.getD (ch.toNat - 32) defaultWidth
      | .timesItalic => timesItalicWidths.getD (ch.toNat - 32) defaultWidth
      | .timesBoldItalic => timesBoldItalicWidths.getD (ch.toNat - 32) defaultWidth
      | _ => defaultWidth

/-- `FontMetrics::measure_text`: width of a string in points. -/
def measureTextBuiltin (text : List Char) (font : BuiltinFont) (fontSize : ℚ) : ℚ :=
  ((text.map (charWidth font)).sum : ℚ) * fontSize / 1000

/-- `FontMetrics::line_height`: `font_size * 1.2`. -/
def lineHeightBuiltin (_font : BuiltinFont) (fontSize : ℚ) : ℚ :=
  fontSize * (12 / 10)

/-! ## TrueType fonts (src/pdf-core/src/truetype.rs, metric interface)

The binary TTF parsing is an external concern; a loaded face is modelled
by the data `break_word` / layout consume: a codepoint→glyph map (with the
`unwrap_or(0)` fallback folded in), a glyph→advance map (with the
`default_width` fallback folded in), units per em, ascent and descent. -/

/-- A loaded TrueType face as the layout engine sees it. -/
structure TrueTypeFont where
  pdfName : String
  cmap : Char → ℕ
  glyphWidth : ℕ → ℕ
  unitsPerEm : ℕ
  ascent : ℤ
  descent : ℤ

/-- `TrueTypeFont::char_width_pdf`: `raw * 1000 / units_per_em`
(integer division, as in the source). -/
def TrueTypeFont.charWidthPdf (f : TrueTypeFont) (ch : Char) : ℕ :=
  f.glyphWidth (f.cmap ch) * 1000 / f.unitsPerEm

/-- `TrueTypeFont::measure_text`. -/
def TrueTypeFont.measureText (f : TrueTypeFont) (text : List Char) (fontSize : ℚ) : ℚ :=
  ((text.map f.charWidthPdf).sum : ℚ) * fontSize / 1000

/-- `TrueTypeFont::line_height`: `(ascent - descent) / units_per_em * font_size`. -/
def TrueTypeFont.lineHeight (f : TrueTypeFont) (fontSize : ℚ) : ℚ :=
  ((f.ascent - f.descent : ℤ) : ℚ) / (f.unitsPerEm : ℚ) * fontSize

/-- Fallback face used to totalize the source's panicking index
`tt_fonts[id.0]` (never reached on in-range indices). -/
def fallbackTTFont : TrueTypeFont :=
  { pdfName := "", cmap := fun _ => 0, glyphWidth := fun _ => 0,
    unitsPerEm := 1000, ascent := 0, descent := 0 }

/-! ## Text styles and word breaking (src/pdf-core/src/textflow.rs) -/

/-- `FontRef`: a builtin font or an index into the document's TrueType
font list. -/
inductive FontRef where
  | builtin (b : BuiltinFont)
  | truetype (idx : ℕ)
  deriving DecidableEq, Repr

/-- `WordBreak` modes. -/
inductive WordBreak where
  | breakAll
  | hyphenate
  | normal
  deriving DecidableEq, Repr

/-- `FitResult`. -/
inductive FitResult where
  | stop
  | boxFull
  | boxEmpty
  deriving DecidableEq, Repr

/-- Layout rectangle, upper-left origin. -/
structure Rect where
  x : ℚ
  y : ℚ
  width : ℚ
  height : ℚ

/-- `TextStyle`. -/
structure TextStyle where
  font : FontRef
  fontSize : ℚ

/-- `line_height_for`. -/
def lineHeightFor (style : TextStyle) (ttFonts : List TrueTypeFont) : ℚ :=
  match style.font with
  | .builtin b => lineHeightBuiltin b style.fontSize
  | .truetype i => (ttFonts.getD i fallbackTTFont).lineHeight style.fontSize

/-- `measure_word`. -/
def measureWord (text : List Char) (style : TextStyle) (ttFonts : List TrueTypeFont) : ℚ :=
  match style.font with
  | .builtin b => measureTextBuiltin text b style.fontSize
  | .truetype i => (ttFonts.getD i fallbackTTFont).measureText text style.fontSize

/-- Total UTF-8 byte length of a codepoint sequence. -/
def utf8Len (cs : List Char) : ℕ := (cs.map Char.utf8Size).sum

/-- The inner character scan of `break_word`: starting from an already
accepted prefix `pre` (whose byte length is `bytes`, codepoint count `k`
and measured width `pw`), extend the prefix while it fits the budget.
Returns the accepted codepoint count and byte position, exactly as the
source tracks `prefix_end` in bytes.  `μ` is `measure_word` applied to the
prefix of the current remainder (the source measures `&remaining[..next_end]`). -/
def scanBreakAux (μ : List Char → ℚ) (budget : ℚ) :
    List Char → List Char → ℕ → ℕ → ℚ → ℕ × ℕ
  | [], _pre, k, bytes, _pw => (k, bytes)
  | ch :: rest, pre, k, bytes, pw =>
    if μ (pre ++ [ch]) - pw + pw > budget ∧ 0 < bytes then (k, bytes)
    else if budget ≤ pw + (μ (pre ++ [ch]) - pw) then (k + 1, bytes + ch.utf8Size)
    else scanBreakAux μ budget rest (pre ++ [ch]) (k + 1) (bytes + ch.utf8Size)
      (pw + (μ (pre ++ [ch]) - pw))

/-- The `for ch in remaining.chars()` loop of `break_word`. -/
def scanBreak (μ : List Char → ℚ) (budget : ℚ) (remaining : List Char) : ℕ × ℕ :=
  scanBreakAux μ budget remaining [] 0 0 0

/-- Codepoints taken for the next piece, including the degenerate
fallback (`remaining.chars().next()`): at least one codepoint whenever
the remainder is nonempty. -/
def breakPieceLen (μ : List Char → ℚ) (budget : ℚ) (remaining : List Char) : ℕ :=
  if (scanBreak μ budget remaining).1 = 0 then min 1 remaining.length
  else (scanBreak μ budget remaining).1

/-- The outer `while !remaining.is_empty()` loop of `break_word`, with
fuel (each iteration consumes at least one codepoint, so fuel
`word.length` is enough — see `breakWordAux_reassemble`). -/
def breakWordAux (μ : List Char → ℚ) (budget : ℚ) (mode : WordBreak) :
    ℕ → List Char → List (List Char)
  | 0, _ => []
  | _ + 1, [] => []
  | fuel + 1, ch :: rest =>
    let remaining := ch :: rest
    let kp := breakPieceLen μ budget remaining
    let piece :=
      if ¬remaining.length ≤ kp ∧ mode = WordBreak.hyphenate
      then remaining.take kp ++ ['-'] else remaining.take kp
    piece :: breakWordAux μ budget mode fuel (remaining.drop kp)

/-- `break_word` with the word measure abstracted (the source measure is
additive over codepoints for both font kinds; any measure is allowed
here). -/
def breakWordMeasured (μ : List Char → ℚ) (availWidth : ℚ) (mode : WordBreak)
    (word : List Char) : List (List Char) :=
  breakWordAux μ
    (availWidth - (if mode = WordBreak.hyphenate then μ ['-'] else 0))
    mode word.length word

/-- `break_word(word, avail_width, style, mode, tt_fonts)`. -/
def breakWord (word : List Char) (availWidth : ℚ) (style : TextStyle)
    (mode : WordBreak) (ttFonts : List TrueTypeFont) : List (List Char) :=
  breakWordMeasured (fun cs => measureWord cs style ttFonts) availWidth mode word

/-- Reassemble break pieces: drop the trailing hyphen of every non-last
piece in `Hyphenate` mode, then concatenate. -/
def reassemble (mode : WordBreak) : List (List Char) → List Char
  | [] => []
  | [p] => p
  | p :: ps =>
    (if mode = WordBreak.hyphenate then p.dropLast else p) ++ reassemble mode ps

/-! ## Object model (src/pdf-core/src/objects.rs) -/

/-- `ObjId(number, generation)`. -/
structure ObjId where
  num : ℕ
  gen : ℕ
  deriving DecidableEq, Repr

/-- Convenience: the character list of a string literal. -/
def chars (s : String) : List Char := s.data

mutual
/-- `PdfObject` — the Rust `Vec` payloads of `Array`/`Dictionary`/`Stream`
are carried by the two spine types below (the spines are isomorphic to
lists; they let the serializer recurse structurally). -/
inductive PdfObject where
  | null
  | boolean (b : Bool)
  | integer (n : ℤ)
  | real (x : ℚ)
  | name (s : List Char)
  | literalString (s : List Char)
  | array (xs : PdfObjList)
  | dictionary (es : PdfDictList)
  | stream (dict : PdfDictList) (data : List Char)
  | reference (id : ObjId)

/-- Spine of `Vec<PdfObject>`. -/
inductive PdfObjList where
  | nil
  | cons (x : PdfObject) (xs : PdfObjList)

/-- Spine of `Vec<(String, PdfObject)>`. -/
inductive PdfDictList where
  | nil
  | cons (k : List Char) (v : PdfObject) (rest : PdfDictList)
end

/-- Append for dictionary spines (used by the assembler to add entries). -/
def PdfDictList.append : PdfDictList → PdfDictList → PdfDictList
  | .nil, ys => ys
  | .cons k v rest, ys => .cons k v (rest.append ys)

/-- Build a dictionary spine from a list of entries. -/
def PdfDictList.ofList : List (List Char × PdfObject) → PdfDictList
  | [] => .nil
  | (k, v) :: rest => .cons k v (ofList rest)

/-- Build an array spine from a list of objects. -/
def PdfObjList.ofList : List PdfObject → PdfObjList
  | [] => .nil
  | x :: rest => .cons x (ofList rest)

/-! ## Low-level writer (src/pdf-core/src/writer.rs) -/

/-- `escape_pdf_string`: escape `\`, `(`, `)` with a backslash. -/
def escapePdfString : List Char → List Char
  | [] => []
  | c :: cs =>
    (if c = '\\' then ['\\', '\\']
     else if c = '(' then ['\\', '(']
     else if c = ')' then ['\\', ')']
     else [c]) ++ escapePdfString cs

mutual
/-- `write_pdf_object`: serialize a `PdfObject` to its PDF text form. -/
def serializePdfObject : PdfObject → List Char
  | .null => chars "null"
  | .boolean b => if b then chars "true" else chars "false"
  | .integer n => renderInt n
  | .real x => formatReal x
  | .name s => '/' :: s
  | .literalString s => '(' :: (escapePdfString s ++ [')'])
  | .array xs => '[' :: (serializeItems xs ++ [']'])
  | .dictionary es => chars "<<" ++ serializeEntries es ++ chars " >>"
  | .stream d data =>
      chars "<<" ++ serializeEntries d ++ chars " /Length " ++
        renderNat data.length ++ chars " >>\nstream\n" ++ data ++ chars "\nendstream"
  | .reference id => renderNat id.num ++ ' ' :: (renderNat id.gen ++ chars " R")

/-- Array items, single-space separated. -/
def serializeItems : PdfObjList → List Char
  | .nil => []
  | .cons x .nil => serializePdfObject x
  | .cons x (.cons y ys) =>
      serializePdfObject x ++ ' ' :: serializeItems (.cons y ys)

/-- Dictionary entries: ` /Key value` each. -/
def serializeEntries : PdfDictList → List Char
  | .nil => []
  | .cons k v rest =>
      chars " /" ++ k ++ ' ' :: serializePdfObject v ++ serializeEntries rest
end

/-- The serial writer state: output bytes, tracked offset, xref entries
`(number, offset)` in push order.  `log` additionally records the
`(id, object)` arguments of every `write_object` call — data the Rust
writer's `xref_entries` holds in part — so that theorems can speak about
which objects were written. -/
structure WriterState where
  output : List Char
  offset : ℕ
  xref : List (ℕ × ℕ)
  log : List (ObjId × PdfObject)

/-- A fresh writer. -/
def initWriter : WriterState :=
  { output := [], offset := 0, xref := [], log := [] }

/-- `write_bytes`: append, tracking the byte offset. -/
def writeBytes (s : WriterState) (d : List Char) : WriterState :=
  { s with output := s.output ++ d, offset := s.offset + d.length }

/-- `write_header`: `%PDF-1.7\n` plus the 5-byte binary marker. -/
def writeHeader (s : WriterState) : WriterState :=
  writeBytes s (chars "%PDF-1.7\n%\xe2\xe3\xcf\xd3\n")

/-- The writer state right after document creation. -/
def headerState : WriterState := writeHeader initWriter

/-- `N G obj\n` as emitted at the start of every indirect object. -/
def objHeader (id : ObjId) : List Char :=
  renderNat id.num ++ ' ' :: (renderNat id.gen ++ chars " obj\n")

/-- All bytes one `write_object` call appends. -/
def objChunk (id : ObjId) (obj : PdfObject) : List Char :=
  objHeader id ++ serializePdfObject obj ++ chars "\nendobj\n"

/-- `write_object`: record `(number, offset)`, then emit header,
serialized object, and `\nendobj\n`. -/
def writeObject (s : WriterState) (id : ObjId) (obj : PdfObject) : WriterState :=
  let s1 : WriterState :=
    { s with xref := s.xref ++ [(id.num, s.offset)], log := s.log ++ [(id, obj)] }
  let s2 := writeBytes s1 (objHeader id)
  let s3 := writeBytes s2 (serializePdfObject obj)
  writeBytes s3 (chars "\nendobj\n")

/-- Run a sequence of `write_object` calls. -/
def runWrites (s : WriterState) : List (ObjId × PdfObject) → WriterState
  | [] => s
  | (id, obj) :: rest => runWrites (writeObject s id obj) rest

/-- Stable sort of the xref entries by object number
(`sort_by_key(|&(num, _)| num)`). -/
def sortXref (xs : List (ℕ × ℕ)) : List (ℕ × ℕ) :=
  List.insertionSort (fun a b => a.1 ≤ b.1) xs

/-- The HashMap `insert` of the source: later bindings shadow earlier
ones.  Modelled as cons with first-match lookup, which is observationally
the insert/get behavior of the Rust `HashMap`. -/
def mapInsert (m : List (ℕ × ℕ)) (k v : ℕ) : List (ℕ × ℕ) := (k, v) :: m

/-- HashMap `get`. -/
def lookupOffset (m : List (ℕ × ℕ)) (k : ℕ) : Option ℕ :=
  match m.find? (fun e => e.1 == k) with
  | some e => some e.2
  | none => none

/-- The `offset_map` built by `write_xref_and_trailer`: fold the sorted
entries into the map (last insert for a number wins). -/
def buildOffsetMap (xs : List (ℕ × ℕ)) : List (ℕ × ℕ) :=
  xs.foldl (fun m e => mapInsert m e.1 e.2) []

/-- Largest recorded object number (`last` of the sorted entries). -/
def maxObjNum (xs : List (ℕ × ℕ)) : ℕ :=
  ((sortXref xs).getLast?.map (fun e => e.1)).getD 0

/-- Free-list head entry (object 0), exactly 20 bytes. -/
def xrefEntryFree : List Char := chars "0000000000 65535 f\r\n"

/-- Gap entry for unwritten object numbers. -/
def xrefEntryGap : List Char := chars "0000000000 00000 f\r\n"

/-- In-use entry: `{offset:010} {gen:05} n\r\n` with generation 0. -/
def xrefEntryInUse (off : ℕ) : List Char :=
  padZeros 10 (renderNat off) ++ chars " 00000 n\r\n"

/-- The 20-byte entry the table carries for object number `n`. -/
def xrefEntryFor (xref : List (ℕ × ℕ)) (n : ℕ) : List Char :=
  match lookupOffset (buildOffsetMap (sortXref xref)) n with
  | some off => xrefEntryInUse off
  | none => xrefEntryGap

/-- The full entry list of the table: object 0, then objects
`1 .. max_obj`. -/
def xrefEntries (xref : List (ℕ × ℕ)) : List (List Char) :=
  xrefEntryFree :: (List.range' 1 (maxObjNum xref)).map (xrefEntryFor xref)

/-- Trailer, startxref and EOF bytes. -/
def trailerBytes (size : ℕ) (rootId : ObjId) (infoId : Option ObjId)
    (xrefOffset : ℕ) : List Char :=
  chars "trailer\n<< /Size " ++ renderNat size ++ chars " /Root " ++
    renderNat rootId.num ++ ' ' :: (renderNat rootId.gen ++ chars " R") ++
    (match infoId with
     | some i => chars " /Info " ++ renderNat i.num ++ ' ' :: (renderNat i.gen ++ chars " R")
     | none => []) ++
    chars " >>\nstartxref\n" ++ renderNat xrefOffset ++ chars "\n%%EOF\n"

/-- `write_xref_and_trailer`. -/
def writeXrefAndTrailer (s : WriterState) (rootId : ObjId)
    (infoId : Option ObjId) : WriterState :=
  let size := maxObjNum s.xref + 1
  let s1 := writeBytes s (chars "xref\n0 " ++ renderNat size ++ ['\n'])
  let s2 := writeBytes s1 (xrefEntries s.xref).flatten
  writeBytes s2 (trailerBytes size rootId infoId s.offset)

/-- `out` carries the byte pattern `pat` starting at byte position
`off`. -/
abbrev startsAt (out : List Char) (off : ℕ) (pat : List Char) : Prop :=
  (out.drop off).take pat.length = pat

/-- Invariant of the serial writer: the tracked offset is the output
length, xref entries pair up with the written objects, every recorded
offset is the byte position of that object's `N G obj` header. -/
def WriterInv (s : WriterState) : Prop :=
  s.offset = s.output.length ∧
  s.xref.map Prod.fst = s.log.map (fun e => e.1.num) ∧
  ∀ p ∈ s.xref.zip s.log,
    p.1.1 = p.2.1.num ∧ startsAt s.output p.1.2 (objHeader p.2.1)

/-! ## Graphics (src/pdf-core/src/graphics.rs, the part tables use) -/

/-- RGB color, components in [0, 1]. -/
structure Color where
  r : ℚ
  g : ℚ
  b : ℚ

/-! ## Used-font sets

`UsedFonts` holds two `BTreeSet`s; modelled as sorted duplicate-free
lists with ordered insert. -/

/-- Ordered, duplicate-free insert for naturals (BTreeSet insert). -/
def insertSortedNat (x : ℕ) : List ℕ → List ℕ
  | [] => [x]
  | y :: t => if x < y then x :: y :: t else if x = y then y :: t else y :: insertSortedNat x t

/-- Ordered, duplicate-free insert for builtin fonts by variant order. -/
def insertSortedFont (f : BuiltinFont) : List BuiltinFont → List BuiltinFont
  | [] => [f]
  | g :: t =>
    if f.toIdx < g.toIdx then f :: g :: t
    else if f.toIdx = g.toIdx then g :: t
    else g :: insertSortedFont f t

/-- `UsedFonts`. -/
structure UsedFonts where
  builtin : List BuiltinFont
  truetype : List ℕ

/-- The empty `UsedFonts`. -/
def UsedFonts.empty : UsedFonts := { builtin := [], truetype := [] }

/-- `record_font`. -/
def recordFont (font : FontRef) (used : UsedFonts) : UsedFonts :=
  match font with
  | .builtin b => { used with builtin := insertSortedFont b used.builtin }
  | .truetype i => { used with truetype := insertSortedNat i used.truetype }

/-! ## Table engine (src/pdf-core/src/tables.rs) -/

/-- `CellOverflow`. -/
inductive CellOverflow where
  | wrap
  | clip
  | shrink
  deriving DecidableEq, Repr

/-- `CellStyle`. -/
structure CellStyle where
  backgroundColor : Option Color
  textColor : Option Color
  font : FontRef
  fontSize : ℚ
  padding : ℚ
  overflow : CellOverflow
  wordBreak : WordBreak

/-- `CellStyle::default()`. -/
def defaultCellStyle : CellStyle :=
  { backgroundColor := none, textColor := none,
    font := FontRef.builtin BuiltinFont.helvetica, fontSize := 10,
    padding := 4, overflow := CellOverflow.wrap, wordBreak := WordBreak.breakAll }

/-- `Cell`. -/
structure Cell where
  text : List Char
  style : CellStyle

/-- `Row`. -/
structure Row where
  cells : List Cell
  backgroundColor : Option Color
  height : Option ℚ

/-- `Table`. -/
structure Table where
  columns : List ℚ
  defaultStyle : CellStyle
  borderColor : Color
  borderWidth : ℚ

/-- `TableCursor`. -/
structure TableCursor where
  rect : Rect
  currentY : ℚ
  firstRow : Bool

/-- `TableCursor::new`. -/
def TableCursor.make (rect : Rect) : TableCursor :=
  { rect := rect, currentY := rect.y, firstRow := true }

/-- `make_text_style`. -/
def makeTextStyle (style : CellStyle) : TextStyle :=
  { font := style.font, fontSize := style.fontSize }

/-- `str::split_whitespace`: maximal non-whitespace runs. -/
def splitWSAux : List Char → List Char → List (List Char)
  | [], acc => if acc = [] then [] else [acc.reverse]
  | c :: cs, acc =>
    if c.isWhitespace then
      if acc = [] then splitWSAux cs [] else acc.reverse :: splitWSAux cs []
    else splitWSAux cs (c :: acc)

/-- `str::split_whitespace`. -/
def splitWS (cs : List Char) : List (List Char) := splitWSAux cs []

/-- `str::trim`. -/
def trimChars (cs : List Char) : List Char :=
  ((cs.dropWhile Char.isWhitespace).reverse.dropWhile Char.isWhitespace).reverse

/-- `str::split('\n')` (keeps empty segments). -/
def splitNL : List Char → List (List Char)
  | [] => [[]]
  | c :: cs =>
    if c = '\n' then [] :: splitNL cs
    else
      match splitNL cs with
      | [] => [[c]]
      | r :: rs => (c :: r) :: rs

/-- `count_break_lines`. -/
def countBreakLines (word : List Char) (availWidth : ℚ) (style : TextStyle)
    (wordBreak : WordBreak) (ttFonts : List TrueTypeFont) : ℕ :=
  (breakWord word availWidth style wordBreak ttFonts).length

/-- `trailing_piece_width`. -/
def trailingPieceWidth (word : List Char) (availWidth : ℚ) (style : TextStyle)
    (wordBreak : WordBreak) (ttFonts : List TrueTypeFont) : ℚ :=
  match (breakWord word availWidth style wordBreak ttFonts).getLast? with
  | some p => measureWord p style ttFonts
  | none => 0

/-- The word loop of `count_paragraph_lines`. -/
def countParagraphLinesAux (availWidth : ℚ) (style : TextStyle)
    (wordBreak : WordBreak) (ttFonts : List TrueTypeFont) :
    List (List Char) → ℕ → ℚ → ℕ
  | [], lines, _ => lines
  | w :: ws, lines, lineWidth =>
    let wordW := measureWord w style ttFonts
    let spaceW := if lineWidth = 0 then 0 else measureWord [' '] style ttFonts
    let needed := lineWidth + spaceW + wordW
    if needed > availWidth ∧ 0 < lineWidth then
      if wordBreak ≠ WordBreak.normal ∧ wordW > availWidth then
        countParagraphLinesAux availWidth style wordBreak ttFonts ws
          (lines + 1 + (countBreakLines w availWidth style wordBreak ttFonts - 1))
          (trailingPieceWidth w availWidth style wordBreak ttFonts)
      else
        countParagraphLinesAux availWidth style wordBreak ttFonts ws (lines + 1) wordW
    else if wordBreak ≠ WordBreak.normal ∧ wordW > availWidth then
      countParagraphLinesAux availWidth style wordBreak ttFonts ws
        (lines + (countBreakLines w availWidth style wordBreak ttFonts - 1))
        (trailingPieceWidth w availWidth style wordBreak ttFonts)
    else
      countParagraphLinesAux availWidth style wordBreak ttFonts ws lines needed

/-- `count_paragraph_lines`. -/
def countParagraphLines (text : List Char) (availWidth : ℚ) (style : TextStyle)
    (wordBreak : WordBreak) (ttFonts : List TrueTypeFont) : ℕ :=
  let t := trimChars text
  if t = [] then 1
  else countParagraphLinesAux availWidth style wordBreak ttFonts (splitWS t) 1 0

/-- `count_lines`. -/
def countLines (text : List Char) (availWidth : ℚ) (style : TextStyle)
    (wordBreak : WordBreak) (ttFonts : List TrueTypeFont) : ℕ :=
  if text = [] then 1
  else
    max ((splitNL text).map
      (fun para => countParagraphLines para availWidth style wordBreak ttFonts)).sum 1

/-- `measure_cell_height`. -/
def measureCellHeight (text : List Char) (style : CellStyle) (colWidth : ℚ)
    (ttFonts : List TrueTypeFont) : ℚ :=
  let availWidth := colWidth - 2 * style.padding
  let ts := makeTextStyle style
  let lh := lineHeightFor ts ttFonts
  (countLines text availWidth ts style.wordBreak ttFonts : ℚ) * lh + 2 * style.padding

/-- `measure_row_height`. -/
def measureRowHeight (row : Row) (columns : List ℚ) (defaultStyle : CellStyle)
    (ttFonts : List TrueTypeFont) : ℚ :=
  match row.height with
  | some h => h
  | none =>
    (columns.enum.map (fun p =>
      match row.cells.get? p.1 with
      | some cell => measureCellHeight cell.text cell.style p.2 ttFonts
      | none =>
        lineHeightFor (makeTextStyle defaultStyle) ttFonts + 2 * defaultStyle.padding)).foldl
      max 0

/-- `place_word_on_line`: returns the updated
`(current_line, line_width, out)`. -/
def placeWordOnLine (word : List Char) (availWidth : ℚ) (style : TextStyle)
    (wordBreak : WordBreak) (ttFonts : List TrueTypeFont)
    (currentLine : List Char) (lineWidth : ℚ) (out : List (List Char)) :
    List Char × ℚ × List (List Char) :=
  let wordW := measureWord word style ttFonts
  if wordW ≤ availWidth ∨ wordBreak = WordBreak.normal then
    ((if currentLine = [] then word else currentLine ++ ' ' :: word),
      lineWidth + wordW, out)
  else
    let pieces := breakWord word availWidth style wordBreak ttFonts
    match pieces.getLast? with
    | none => (currentLine, lineWidth, out)
    | some last =>
      (last, measureWord last style ttFonts, out ++ pieces.dropLast)

/-- The word loop of `wrap_paragraph`. -/
def wrapParagraphAux (availWidth : ℚ) (style : TextStyle) (wordBreak : WordBreak)
    (ttFonts : List TrueTypeFont) :
    List (List Char) → List Char → ℚ → List (List Char) →
      List Char × ℚ × List (List Char)
  | [], currentLine, lineWidth, out => (currentLine, lineWidth, out)
  | w :: ws, currentLine, lineWidth, out =>
    let wordW := measureWord w style ttFonts
    let spaceW := if currentLine = [] then 0 else measureWord [' '] style ttFonts
    let needed := lineWidth + spaceW + wordW
    if needed > availWidth ∧ currentLine ≠ [] then
      let next := placeWordOnLine w availWidth style wordBreak ttFonts [] 0
        (out ++ [currentLine])
      wrapParagraphAux availWidth style wordBreak ttFonts ws next.1 next.2.1 next.2.2
    else if wordW > availWidth ∧ wordBreak ≠ WordBreak.normal ∧ currentLine = [] then
      let next := placeWordOnLine w availWidth style wordBreak ttFonts currentLine
        lineWidth out
      wrapParagraphAux availWidth style wordBreak ttFonts ws next.1 next.2.1 next.2.2
    else
      wrapParagraphAux availWidth style wordBreak ttFonts ws
        ((if currentLine = [] then currentLine else currentLine ++ [' ']) ++ w)
        needed out

/-- `wrap_paragraph`. -/
def wrapParagraph (text : List Char) (availWidth : ℚ) (style : TextStyle)
    (wordBreak : WordBreak) (ttFonts : List TrueTypeFont)
    (out : List (List Char)) : List (List Char) :=
  if text = [] then out ++ [[]]
  else
    let r := wrapParagraphAux availWidth style wordBreak ttFonts (splitWS text) [] 0 out
    if r.1 ≠ [] then r.2.2 ++ [r.1] else r.2.2

/-- `wrap_text`. -/
def wrapText (text : List Char) (availWidth : ℚ) (style : TextStyle)
    (wordBreak : WordBreak) (ttFonts : List TrueTypeFont) : List (List Char) :=
  let lines := (splitNL text).foldl
    (fun acc para => wrapParagraph (trimChars para) availWidth style wordBreak ttFonts acc)
    []
  if lines = [] then [[]] else lines

/-- Iterations needed by `shrink_font_size` (0.5pt steps down to 4pt). -/
def shrinkSteps (initialSize : ℚ) : ℕ := (((initialSize - 4) * 2).ceil).toNat + 1

/-- The shrink loop, fueled (the fuel covers every 0.5pt step down to the
4pt floor, so the loop always stops at its source condition). -/
def shrinkFontSizeAux (text : List Char) (font : FontRef) (availWidth availHeight : ℚ)
    (wordBreak : WordBreak) (ttFonts : List TrueTypeFont) : ℕ → ℚ → ℚ
  | 0, fontSize => fontSize
  | fuel + 1, fontSize =>
    let ts : TextStyle := { font := font, fontSize := fontSize }
    let lh := lineHeightFor ts ttFonts
    let lines := countLines text availWidth ts wordBreak ttFonts
    let fitsHeight := (lines : ℚ) * lh ≤ availHeight
    let fitsWidth := wordBreak ≠ WordBreak.normal ∨
      ∀ w ∈ splitWS text, measureWord w ts ttFonts ≤ availWidth
    if (fitsHeight ∧ fitsWidth) ∨ fontSize ≤ 4 then fontSize
    else shrinkFontSizeAux text font availWidth availHeight wordBreak ttFonts fuel
      (max (fontSize - 1/2) 4)

/-- `shrink_font_size`. -/
def shrinkFontSize (text : List Char) (font : FontRef) (initialSize availWidth availHeight : ℚ)
    (wordBreak : WordBreak) (ttFonts : List TrueTypeFont) : ℚ :=
  shrinkFontSizeAux text font availWidth availHeight wordBreak ttFonts
    (shrinkSteps initialSize) initialSize

/-- Uppercase hex digit. -/
def hexDigitU (d : ℕ) : Char :=
  if d < 10 then digitChar d
  else if d = 10 then 'A' else if d = 11 then 'B' else if d = 12 then 'C'
  else if d = 13 then 'D' else if d = 14 then 'E' else 'F'

/-- `{:04X}` of a u16 glyph id. -/
def render4Hex (n : ℕ) : List Char :=
  [hexDigitU (n / 4096 % 16), hexDigitU (n / 256 % 16),
   hexDigitU (n / 16 % 16), hexDigitU (n % 16)]

/-- `TrueTypeFont::encode_text_hex` (the emitted bytes; the used-glyph
bookkeeping does not affect output). -/
def TrueTypeFont.encodeTextHex (f : TrueTypeFont) (text : List Char) : List Char :=
  '<' :: ((text.map (fun ch => render4Hex (f.cmap ch))).flatten ++ ['>'])

/-- `pdf_font_name` (tables.rs / textflow.rs). -/
def pdfFontName (font : FontRef) (ttFonts : List TrueTypeFont) : List Char :=
  match font with
  | .builtin b => chars b.pdfName
  | .truetype i => chars (ttFonts.getD i fallbackTTFont).pdfName

/-- `emit_cell_text`. -/
def emitCellText (text : List Char) (font : FontRef) (ttFonts : List TrueTypeFont) :
    List Char :=
  if text = [] then []
  else
    match font with
    | .builtin _ => '(' :: (escapePdfString text ++ chars ") Tj\n")
    | .truetype i =>
      (ttFonts.getD i fallbackTTFont).encodeTextHex text ++ chars " Tj\n"

/-- One `rg` fill + `re` + `f` block (row/cell backgrounds). -/
def fillRectOps (c : Color) (x y w h : ℚ) : List Char :=
  formatCoord c.r ++ ' ' :: (formatCoord c.g ++ ' ' :: (formatCoord c.b ++ chars " rg\n")) ++
  formatCoord x ++ ' ' :: (formatCoord y ++ ' ' :: (formatCoord w ++ ' ' ::
    (formatCoord h ++ chars " re\nf\n")))

/-- Per-cell background pass of `draw_row_backgrounds`. -/
def cellBackgroundsAux (cells : List Cell) (colIdx : ℕ) (colX rowBottom rowHeight : ℚ) :
    List ℚ → List Char
  | [] => []
  | colWidth :: restCols =>
    (match cells.get? colIdx with
     | some cell =>
       match cell.style.backgroundColor with
       | some bg => fillRectOps bg colX rowBottom colWidth rowHeight
       | none => []
     | none => []) ++
    cellBackgroundsAux cells (colIdx + 1) (colX + colWidth) rowBottom rowHeight restCols

/-- `draw_row_backgrounds`. -/
def drawRowBackgrounds (row : Row) (columns : List ℚ) (rowX rowTop rowHeight : ℚ) :
    List Char :=
  let rowBottom := rowTop - rowHeight
  (match row.backgroundColor with
   | some bg => fillRectOps bg rowX rowBottom columns.sum rowHeight
   | none => []) ++
  cellBackgroundsAux row.cells 0 rowX rowBottom rowHeight columns

/-- Vertical divider pass of `draw_row_borders`. -/
def dividersAux (colX rowTop rowBottom : ℚ) : List ℚ → List Char
  | [] => []
  | colWidth :: restCols =>
    formatCoord (colX + colWidth) ++ ' ' :: (formatCoord rowTop ++ chars " m\n") ++
    formatCoord (colX + colWidth) ++ ' ' :: (formatCoord rowBottom ++ chars " l\nS\n") ++
    dividersAux (colX + colWidth) rowTop rowBottom restCols

/-- `draw_row_borders`. -/
def drawRowBorders (columns : List ℚ) (rowX rowTop rowHeight : ℚ)
    (borderColor : Color) (borderWidth : ℚ) : List Char :=
  let rowBottom := rowTop - rowHeight
  chars "q\n" ++
  formatCoord borderColor.r ++ ' ' :: (formatCoord borderColor.g ++ ' ' ::
    (formatCoord borderColor.b ++ chars " RG\n")) ++
  formatCoord borderWidth ++ chars " w\n" ++
  formatCoord rowX ++ ' ' :: (formatCoord rowBottom ++ ' ' ::
    (formatCoord columns.sum ++ ' ' :: (formatCoord rowHeight ++ chars " re\nS\n"))) ++
  dividersAux rowX rowTop rowBottom (columns.take (columns.length - 1)) ++
  chars "Q\n"

/-- The per-line `Td`/`Tj` pass of `render_cell`. -/
def cellLinesOps (lns : List (List Char)) (font : FontRef) (lh : ℚ)
    (ttFonts : List TrueTypeFont) : List Char :=
  match lns with
  | [] => []
  | first :: rest =>
    emitCellText first font ttFonts ++
    (rest.map (fun line =>
      chars "0 " ++ formatCoord (-lh) ++ chars " Td\n" ++
        emitCellText line font ttFonts)).flatten

/-- `render_cell`: bytes plus the used-font record. -/
def renderCell (cell : Cell) (cellX rowTop colWidth rowHeight : ℚ)
    (ttFonts : List TrueTypeFont) (used : UsedFonts) : List Char × UsedFonts :=
  let style := cell.style
  let availWidth := max (colWidth - 2 * style.padding) 0
  let availHeight := max (rowHeight - 2 * style.padding) 0
  let effectiveFontSize :=
    if style.overflow = CellOverflow.shrink then
      shrinkFontSize cell.text style.font style.fontSize availWidth availHeight
        style.wordBreak ttFonts
    else style.fontSize
  let ts : TextStyle := { font := style.font, fontSize := effectiveFontSize }
  let lh := lineHeightFor ts ttFonts
  let lns := wrapText cell.text availWidth ts style.wordBreak ttFonts
  let clipOps : List Char :=
    if style.overflow = CellOverflow.clip then
      formatCoord cellX ++ ' ' :: (formatCoord (rowTop - rowHeight) ++ ' ' ::
        (formatCoord colWidth ++ ' ' :: (formatCoord rowHeight ++ chars " re\nW\nn\n")))
    else []
  let textColor := style.textColor.getD { r := 0, g := 0, b := 0 }
  let ops :=
    chars "q\n" ++ clipOps ++ chars "BT\n" ++
    formatCoord textColor.r ++ ' ' :: (formatCoord textColor.g ++ ' ' ::
      (formatCoord textColor.b ++ chars " rg\n")) ++
    '/' :: (pdfFontName ts.font ttFonts ++ ' ' ::
      (formatCoord effectiveFontSize ++ chars " Tf\n")) ++
    formatCoord (cellX + style.padding) ++ ' ' ::
      (formatCoord (rowTop - style.padding - effectiveFontSize) ++ chars " Td\n") ++
    cellLinesOps lns ts.font lh ttFonts ++
    chars "ET\nQ\n"
  (ops, recordFont ts.font used)

/-- The per-column cell pass of `generate_row_ops`. -/
def rowCellsAux (cells : List Cell) (rowTop rowHeight : ℚ)
    (ttFonts : List TrueTypeFont) :
    ℕ → ℚ → List ℚ → UsedFonts → List Char × UsedFonts
  | _, _, [], used => ([], used)
  | colIdx, colX, colWidth :: restCols, used =>
    let r :=
      match cells.get? colIdx with
      | some cell => renderCell cell colX rowTop colWidth rowHeight ttFonts used
      | none => ([], used)
    let rest := rowCellsAux cells rowTop rowHeight ttFonts
      (colIdx + 1) (colX + colWidth) restCols r.2
    (r.1 ++ rest.1, rest.2)

/-- `generate_row_ops`: bytes, fit result, used fonts, and the updated
cursor (the Rust function mutates `cursor` in place). -/
def generateRowOps (table : Table) (row : Row) (cursor : TableCursor)
    (ttFonts : List TrueTypeFont) :
    List Char × FitResult × UsedFonts × TableCursor :=
  let rowHeight := measureRowHeight row table.columns table.defaultStyle ttFonts
  let bottom := cursor.rect.y - cursor.rect.height
  if cursor.currentY - rowHeight < bottom then
    ([], (if cursor.firstRow then FitResult.boxEmpty else FitResult.boxFull),
      UsedFonts.empty, cursor)
  else
    let bgOps := drawRowBackgrounds row table.columns cursor.rect.x cursor.currentY rowHeight
    let cellsR := rowCellsAux row.cells cursor.currentY rowHeight ttFonts
      0 cursor.rect.x table.columns UsedFonts.empty
    let borderOps :=
      if table.borderWidth > 0 then
        drawRowBorders table.columns cursor.rect.x cursor.currentY rowHeight
          table.borderColor table.borderWidth
      else []
    (bgOps ++ cellsR.1 ++ borderOps, FitResult.stop, cellsR.2,
      { cursor with currentY := cursor.currentY - rowHeight, firstRow := false })

/-! ## Text flow layout (src/pdf-core/src/textflow.rs) -/

/-- `Word`: extracted word with style and leading-space flag. -/
structure Word where
  text : List Char
  style : TextStyle
  leadingSpace : Bool

/-- `TextFlow` (spans plus cursor and break mode). -/
structure TextFlow where
  spans : List (List Char × TextStyle)
  cursor : ℕ
  wordBreak : WordBreak

/-- The per-span character loop of `extract_words`, fueled by the span's
character count (each step consumes at least one character, so the fuel
is never exhausted). -/
def extractSpanAux (style : TextStyle) :
    ℕ → List Char → Bool → List Word → List Word × Bool
  | 0, _, hadSpace, ws => (ws, hadSpace)
  | _ + 1, [], hadSpace, ws => (ws, hadSpace)
  | fuel + 1, ' ' :: cs, _, ws => extractSpanAux style fuel cs true ws
  | fuel + 1, '\n' :: cs, _, ws =>
    extractSpanAux style fuel cs false
      (ws ++ [{ text := ['\n'], style := style, leadingSpace := false }])
  | fuel + 1, c :: cs, hadSpace, ws =>
    let word := c :: cs.takeWhile (fun x => ¬(x = ' ' ∨ x = '\n'))
    let rest := cs.dropWhile (fun x => ¬(x = ' ' ∨ x = '\n'))
    extractSpanAux style fuel rest false
      (ws ++ [{ text := word, style := style,
                leadingSpace := hadSpace && !ws.isEmpty }])

/-- The span loop of `extract_words` (`had_space` persists across
spans). -/
def extractWordsAux : List (List Char × TextStyle) → Bool → List Word → List Word
  | [], _, ws => ws
  | (text, style) :: rest, hadSpace, ws =>
    let r := extractSpanAux style text.length text hadSpace ws
    extractWordsAux rest r.2 r.1

/-- `extract_words`. -/
def extractWords (spans : List (List Char × TextStyle)) : List Word :=
  extractWordsAux spans false []

/-- `break_wide_words`. -/
def breakWideWords (words : List Word) (maxWidth : ℚ) (mode : WordBreak)
    (ttFonts : List TrueTypeFont) : List Word :=
  (words.map (fun w =>
    if w.text = ['\n'] then [w]
    else if measureWord w.text w.style ttFonts ≤ maxWidth then [w]
    else
      (breakWord w.text maxWidth w.style mode ttFonts).enum.map
        (fun p => { text := p.2, style := w.style,
                    leadingSpace := p.1 = 0 ∧ w.leadingSpace }))).flatten

/-- The word list `generate_content_ops` lays out. -/
def flowWords (flow : TextFlow) (rect : Rect) (ttFonts : List TrueTypeFont) :
    List Word :=
  let rawWords := extractWords flow.spans
  if flow.wordBreak ≠ WordBreak.normal then
    breakWideWords rawWords rect.width flow.wordBreak ttFonts
  else rawWords

/-- The inner line-collection loop of `generate_content_ops`.
`none` signals the early `BoxEmpty` return (first word of a fresh line
does not fit and nothing has been placed); `some lineEnd` is the index
one past the last word of the line. -/
def collectLineAux (words : List Word) (rectWidth : ℚ)
    (ttFonts : List TrueTypeFont) (anyPlaced : Bool) (lineStart : ℕ) :
    ℕ → ℕ → ℚ → Option ℕ
  | 0, lineEnd, _ => some lineEnd
  | fuel + 1, lineEnd, lineWidth =>
    match words.get? lineEnd with
    | none => some lineEnd
    | some word =>
      if word.text = ['\n'] then some (lineEnd + 1)
      else
        let wordWidth := measureWord word.text word.style ttFonts
        let spaceWidth :=
          if word.leadingSpace then measureWord [' '] word.style ttFonts else 0
        let total := lineWidth + spaceWidth + wordWidth
        if total > rectWidth ∧ lineStart < lineEnd then some lineEnd
        else if total > rectWidth ∧ lineEnd = lineStart then
          if ¬anyPlaced then none else some (lineEnd + 1)
        else collectLineAux words rectWidth ttFonts anyPlaced lineStart fuel
          (lineEnd + 1) total

/-- The line-collection loop started at `start`. -/
def collectLine (words : List Word) (rectWidth : ℚ) (ttFonts : List TrueTypeFont)
    (anyPlaced : Bool) (start : ℕ) : Option ℕ :=
  collectLineAux words rectWidth ttFonts anyPlaced start (words.length - start) start 0

/-- `emit_text` (textflow.rs). -/
def emitTextOps (text : List Char) (font : FontRef) (ttFonts : List TrueTypeFont) :
    List Char :=
  match font with
  | .builtin _ => '(' :: (escapePdfString text ++ chars ") Tj\n")
  | .truetype i => (ttFonts.getD i fallbackTTFont).encodeTextHex text ++ chars " Tj\n"

/-- Result of emitting one line's words. -/
structure EmitState where
  output : List Char
  activeFont : Option FontRef
  activeSize : Option ℚ
  used : UsedFonts

/-- The word-emission pass for one line
(`for i in line_start..line_end`). -/
def emitLineAux (words : List Word) (ttFonts : List TrueTypeFont)
    (lineStart lineEnd : ℕ) :
    ℕ → ℕ → Option FontRef → Option ℚ → UsedFonts → EmitState
  | 0, _, af, asz, used =>
    { output := [], activeFont := af, activeSize := asz, used := used }
  | fuel + 1, i, af, asz, used =>
    if i < lineEnd then
      match words.get? i with
      | none => { output := [], activeFont := af, activeSize := asz, used := used }
      | some word =>
        if word.text = ['\n'] then emitLineAux words ttFonts lineStart lineEnd fuel (i + 1) af asz used
        else
          let fontRef := word.style.font
          let fontSize := word.style.fontSize
          let changed := ¬(af = some fontRef ∧ asz = some fontSize)
          let tfOps : List Char :=
            if changed then
              '/' :: (pdfFontName fontRef ttFonts ++ ' ' ::
                (formatCoord fontSize ++ chars " Tf\n"))
            else []
          let af' := if changed then some fontRef else af
          let asz' := if changed then some fontSize else asz
          let used' := if changed then recordFont fontRef used else used
          let displayText :=
            if word.leadingSpace ∧ ¬i = lineStart then ' ' :: word.text else word.text
          let tj := emitTextOps displayText fontRef ttFonts
          let rest := emitLineAux words ttFonts lineStart lineEnd fuel (i + 1) af' asz' used'
          { rest with output := tfOps ++ tj ++ rest.output }
    else { output := [], activeFont := af, activeSize := asz, used := used }

/-- Result of the outer layout loop. -/
structure LayoutResult where
  output : List Char
  cursor : ℕ
  used : UsedFonts
  exit : Option FitResult

/-- The outer `while self.cursor < words.len()` loop of
`generate_content_ops`.  `exit = some r` models the early returns
(`BoxFull` with `ET` appended, or the fresh-empty `BoxEmpty`);
`exit = none` models falling out of the loop. -/
def layoutLoopAux (words : List Word) (rect : Rect) (ttFonts : List TrueTypeFont)
    (firstBaselineY : ℚ) :
    ℕ → ℕ → List Char → ℚ → Bool → Bool → Option FontRef → Option ℚ →
      UsedFonts → LayoutResult
  | 0, cursor, output, _, _, _, _, _, used =>
    { output := output, cursor := cursor, used := used, exit := none }
  | fuel + 1, cursor, output, currentY, isFirstLine, anyPlaced, af, asz, used =>
    match words.get? cursor with
    | none => { output := output, cursor := cursor, used := used, exit := none }
    | some w =>
      let lineHeight := lineHeightFor w.style ttFonts
      if ¬isFirstLine ∧ currentY - lineHeight < rect.y - rect.height then
        { output := output ++ chars "ET\n", cursor := cursor, used := used,
          exit := some FitResult.boxFull }
      else
        match collectLine words rect.width ttFonts anyPlaced cursor with
        | none =>
          { output := [], cursor := cursor, used := UsedFonts.empty,
            exit := some FitResult.boxEmpty }
        | some lineEnd =>
          if lineEnd = cursor then
            { output := output, cursor := cursor, used := used, exit := none }
          else
            let tdOps : List Char :=
              if isFirstLine then
                formatCoord rect.x ++ ' ' ::
                  (formatCoord firstBaselineY ++ chars " Td\n")
              else chars "0 " ++ formatCoord (-lineHeight) ++ chars " Td\n"
            let currentY' := if isFirstLine then currentY else currentY - lineHeight
            let em := emitLineAux words ttFonts cursor lineEnd (lineEnd - cursor)
              cursor af asz used
            layoutLoopAux words rect ttFonts firstBaselineY fuel lineEnd
              (output ++ tdOps ++ em.output) currentY' false true
              em.activeFont em.activeSize em.used

/-- The outer loop of `generate_content_ops`, started from the flow's
cursor with the first pending word's baseline. -/
def layoutRun (flow : TextFlow) (rect : Rect) (ttFonts : List TrueTypeFont)
    (firstWord : Word) : LayoutResult :=
  layoutLoopAux (flowWords flow rect ttFonts) rect ttFonts
    (rect.y - firstWord.style.fontSize)
    ((flowWords flow rect ttFonts).length - flow.cursor) flow.cursor
    (chars "BT\n") (rect.y - firstWord.style.fontSize)
    true false Option.none Option.none UsedFonts.empty

/-- `generate_content_ops`: bytes, fit result, used fonts, and the new
cursor (the Rust method advances `self.cursor` in place). -/
def generateContentOps (flow : TextFlow) (rect : Rect)
    (ttFonts : List TrueTypeFont) : List Char × FitResult × UsedFonts × ℕ :=
  match (flowWords flow rect ttFonts).get? flow.cursor with
  | Option.none => ([], FitResult.stop, UsedFonts.empty, flow.cursor)
  | some firstWord =>
    if lineHeightFor firstWord.style ttFonts > rect.height then
      ([], FitResult.boxEmpty, UsedFonts.empty, flow.cursor)
    else
      match (layoutRun flow rect ttFonts firstWord).exit with
      | some fr =>
        ((layoutRun flow rect ttFonts firstWord).output, fr,
          (layoutRun flow rect ttFonts firstWord).used,
          (layoutRun flow rect ttFonts firstWord).cursor)
      | Option.none =>
        ((layoutRun flow rect ttFonts firstWord).output ++ chars "ET\n",
          (if (flowWords flow rect ttFonts).length ≤
              (layoutRun flow rect ttFonts firstWord).cursor then FitResult.stop
           else FitResult.boxFull),
          (layoutRun flow rect ttFonts firstWord).used,
          (layoutRun flow rect ttFonts firstWord).cursor)

/-! ## Images (src/pdf-core/src/images.rs) -/

/-- `ImageFormat`. -/
inductive ImageFormat where
  | jpeg
  | png
  deriving DecidableEq, Repr

/-- `ColorSpace`. -/
inductive ColorSpace where
  | deviceRGB
  | deviceGray
  deriving DecidableEq, Repr

/-- `ColorSpace::pdf_name`. -/
def ColorSpace.pdfName : ColorSpace → String
  | .deviceRGB => "DeviceRGB"
  | .deviceGray => "DeviceGray"

/-- `ImageFit`. -/
inductive ImageFit where
  | fit
  | fill
  | stretch
  | none
  deriving DecidableEq, Repr

/-- `ImageData` (a successfully decoded image; the JPEG/PNG bit-level
decoding is an external collaborator). -/
structure ImageData where
  width : ℕ
  height : ℕ
  format : ImageFormat
  colorSpace : ColorSpace
  bitsPerComponent : ℕ
  data : List Char
  smaskData : Option (List Char)

/-- `ClipRect`. -/
structure ClipRect where
  x : ℚ
  y : ℚ
  width : ℚ
  height : ℚ

/-- `ImagePlacement`. -/
structure ImagePlacement where
  x : ℚ
  y : ℚ
  width : ℚ
  height : ℚ
  clip : Option ClipRect

/-- `calculate_placement`. -/
def calculatePlacement (imgW imgH : ℕ) (rect : Rect) (fit : ImageFit)
    (pageHeight : ℚ) : ImagePlacement :=
  let iw : ℚ := imgW
  let ih : ℚ := imgH
  let pdfBottom := pageHeight - (rect.y + rect.height)
  match fit with
  | .fit =>
    let scale := min (rect.width / iw) (rect.height / ih)
    let w := iw * scale
    let h := ih * scale
    { x := rect.x + (rect.width - w) / 2, y := pdfBottom + (rect.height - h) / 2,
      width := w, height := h, clip := Option.none }
  | .fill =>
    let scale := max (rect.width / iw) (rect.height / ih)
    let w := iw * scale
    let h := ih * scale
    { x := rect.x + (rect.width - w) / 2, y := pdfBottom + (rect.height - h) / 2,
      width := w, height := h,
      clip := some { x := rect.x, y := pdfBottom, width := rect.width, height := rect.height } }
  | .stretch =>
    { x := rect.x, y := pdfBottom, width := rect.width, height := rect.height,
      clip := Option.none }
  | .none =>
    { x := rect.x, y := pdfBottom + (rect.height - ih), width := iw, height := ih,
      clip := Option.none }

/-! ## Document assembler (src/pdf-core/src/document.rs)

The model covers the builtin-font and image paths of the assembler (the
TrueType object-emission pass at `end_document` is not reachable from the
modelled operations, which never load a TrueType font; loaded TT faces
still participate in layout measurement).  The overlay-edit path
(`open_page` and the edit branch of `end_page`) is not present under
`src/`, only its tests and callers; it is modelled from the spec where
marked. -/

/-- Pre-allocated object ids for an image XObject
(`ImageObjIds` in document.rs). -/
structure ImageObjIds where
  xobject : ObjId
  smask : Option ObjId
  pdfName : List Char
  deriving DecidableEq, Repr

/-- `PageBuilder`.  `editing` is `none` for a fresh page; `some i`
(modelled from the spec) marks a re-opened completed page `i`
(0-based). -/
structure PageBuilder where
  width : ℚ
  height : ℚ
  contentOps : List Char
  usedFonts : List BuiltinFont
  usedTTFonts : List ℕ
  usedImages : List ℕ
  editing : Option ℕ

/-- Modelled from the spec: the assembler's record of a completed page —
dimensions, its page object id, and its content stream ids (more than one
after overlays).  The source keeps `page_obj_ids`; the overlay-edit code
that needs dimensions and content ids is missing from `src/`. -/
structure PageRecord where
  width : ℚ
  height : ℚ
  pageId : ObjId
  contentIds : List ObjId
  usedFonts : List BuiltinFont
  usedImages : List ℕ

/-- `PdfDocument` state. -/
structure DocState where
  writer : WriterState
  info : List (List Char × List Char)
  pageObjIds : List ObjId
  currentPage : Option PageBuilder
  nextObjNum : ℕ
  fontObjIds : List (BuiltinFont × ObjId)
  truetypeFonts : List TrueTypeFont
  compress : Bool
  images : List ImageData
  imageObjIds : List (ℕ × ImageObjIds)
  writtenImages : List ℕ
  nextImageNum : ℕ
  pageRecords : List PageRecord

/-- `PdfDocument::new`: header written eagerly, counter starts at 3. -/
def docInit : DocState :=
  { writer := headerState, info := [], pageObjIds := [], currentPage := none,
    nextObjNum := 3, fontObjIds := [], truetypeFonts := [], compress := false,
    images := [], imageObjIds := [], writtenImages := [], nextImageNum := 1,
    pageRecords := [] }

/-- `make_stream`: optionally FlateDecode the payload.  `flate` is the
external zlib collaborator (`bytes → bytes`). -/
def makeStream (flate : List Char → List Char) (compress : Bool)
    (dictEntries : List (List Char × PdfObject)) (data : List Char) : PdfObject :=
  if compress then
    PdfObject.stream
      (PdfDictList.ofList (dictEntries ++ [(chars "Filter", PdfObject.name (chars "FlateDecode"))]))
      (flate data)
  else PdfObject.stream (PdfDictList.ofList dictEntries) data

/-- Assoc-list lookup for builtin font object ids. -/
def lookupFontObj (m : List (BuiltinFont × ObjId)) (f : BuiltinFont) : Option ObjId :=
  match m.find? (fun e => e.1 = f) with
  | some e => some e.2
  | Option.none => Option.none

/-- Assoc-list lookup for image object ids. -/
def lookupImageObj (m : List (ℕ × ImageObjIds)) (idx : ℕ) : Option ImageObjIds :=
  match m.find? (fun e => e.1 == idx) with
  | some e => some e.2
  | Option.none => Option.none

/-- `ensure_font_written`. -/
def ensureFontWritten (s : DocState) (font : BuiltinFont) : DocState × ObjId :=
  match lookupFontObj s.fontObjIds font with
  | some id => (s, id)
  | Option.none =>
    let id : ObjId := ⟨s.nextObjNum, 0⟩
    let obj := PdfObject.dictionary (PdfDictList.ofList
      [(chars "Type", PdfObject.name (chars "Font")),
       (chars "Subtype", PdfObject.name (chars "Type1")),
       (chars "BaseFont", PdfObject.name (chars font.pdfBaseName))])
    ({ s with nextObjNum := s.nextObjNum + 1,
              writer := writeObject s.writer id obj,
              fontObjIds := s.fontObjIds ++ [(font, id)] }, id)

/-- `ensure_image_obj_ids`. -/
def ensureImageObjIds (s : DocState) (idx : ℕ) : DocState :=
  if (lookupImageObj s.imageObjIds idx).isSome then s
  else
    let xobject : ObjId := ⟨s.nextObjNum, 0⟩
    let hasSmask :=
      match s.images.get? idx with
      | some img => img.smaskData.isSome
      | Option.none => false
    let smask : Option ObjId :=
      if hasSmask then some ⟨s.nextObjNum + 1, 0⟩ else Option.none
    let nextNum := if hasSmask then s.nextObjNum + 2 else s.nextObjNum + 1
    let pdfName := chars "Im" ++ renderNat s.nextImageNum
    { s with nextObjNum := nextNum,
             nextImageNum := s.nextImageNum + 1,
             imageObjIds := s.imageObjIds ++
               [(idx, { xobject := xobject, smask := smask, pdfName := pdfName })] }

/-- The image XObject dictionary entries shared by both formats. -/
def imageDictEntries (img : ImageData) (smaskId : Option ObjId) :
    List (List Char × PdfObject) :=
  [(chars "Type", PdfObject.name (chars "XObject")),
   (chars "Subtype", PdfObject.name (chars "Image")),
   (chars "Width", PdfObject.integer (img.width : ℤ)),
   (chars "Height", PdfObject.integer (img.height : ℤ)),
   (chars "ColorSpace", PdfObject.name (chars img.colorSpace.pdfName)),
   (chars "BitsPerComponent", PdfObject.integer (img.bitsPerComponent : ℤ))] ++
  (match smaskId with
   | some i => [(chars "SMask", PdfObject.reference i)]
   | Option.none => [])

/-- `write_image_xobject`. -/
def writeImageXObject (flate : List Char → List Char) (s : DocState) (idx : ℕ) :
    DocState :=
  if idx ∈ s.writtenImages then s
  else
    match s.images.get? idx, lookupImageObj s.imageObjIds idx with
    | some img, some objIds =>
      let s1 :=
        match objIds.smask, img.smaskData with
        | some smaskObjId, some smaskData =>
          let smaskStream := makeStream flate s.compress
            [(chars "Type", PdfObject.name (chars "XObject")),
             (chars "Subtype", PdfObject.name (chars "Image")),
             (chars "Width", PdfObject.integer (img.width : ℤ)),
             (chars "Height", PdfObject.integer (img.height : ℤ)),
             (chars "ColorSpace", PdfObject.name (chars "DeviceGray")),
             (chars "BitsPerComponent", PdfObject.integer 8)]
            smaskData
          { s with writer := writeObject s.writer smaskObjId smaskStream }
        | _, _ => s
      let entries := imageDictEntries img objIds.smask
      let imageObj :=
        match img.format with
        | ImageFormat.jpeg =>
          PdfObject.stream
            (PdfDictList.ofList (entries ++
              [(chars "Filter", PdfObject.name (chars "DCTDecode"))]))
            img.data
        | ImageFormat.png => makeStream flate s.compress entries img.data
      { s1 with writer := writeObject s1.writer objIds.xobject imageObj,
                writtenImages := insertSortedNat idx s.writtenImages }
    | _, _ => s

/-- `load_image_bytes` (past the external decode): push the decoded
image, return its dense index as the handle. -/
def loadImageBytes (s : DocState) (img : ImageData) : DocState × ℕ :=
  ({ s with images := s.images ++ [img] }, s.images.length)

/-- `place_image` content-stream operators. -/
def placeImageOps (placement : ImagePlacement) (pdfName : List Char) : List Char :=
  chars "q\n" ++
  (match placement.clip with
   | some clip =>
     formatCoord clip.x ++ ' ' :: (formatCoord clip.y ++ ' ' ::
       (formatCoord clip.width ++ ' ' :: (formatCoord clip.height ++ chars " re W n\n")))
   | Option.none => []) ++
  formatCoord placement.width ++ chars " 0 0 " ++ formatCoord placement.height ++
    ' ' :: (formatCoord placement.x ++ ' ' :: (formatCoord placement.y ++ chars " cm\n")) ++
  '/' :: (pdfName ++ chars " Do\n") ++
  chars "Q\n"

/-- `place_image` (no-op without an open page; the source panics
there). -/
def placeImage (s : DocState) (idx : ℕ) (rect : Rect) (fit : ImageFit) : DocState :=
  match s.currentPage, s.images.get? idx with
  | some page, some img =>
    let placement := calculatePlacement img.width img.height rect fit page.height
    let s1 := ensureImageObjIds s idx
    let pdfName :=
      match lookupImageObj s1.imageObjIds idx with
      | some o => o.pdfName
      | Option.none => []
    let ops := placeImageOps placement pdfName
    { s1 with currentPage := some ({ page with
        contentOps := page.contentOps ++ ops,
        usedImages := insertSortedNat idx page.usedImages }) }
  | _, _ => s

/-- `place_text` (default 12pt Helvetica). -/
def placeText (s : DocState) (text : List Char) (x y : ℚ) : DocState :=
  match s.currentPage with
  | some page =>
    let ops := chars "BT\n/F1 12 Tf\n" ++ formatCoord x ++ ' ' ::
      (formatCoord y ++ chars " Td\n") ++
      '(' :: (escapePdfString text ++ chars ") Tj\nET\n")
    { s with currentPage := some ({ page with
        contentOps := page.contentOps ++ ops,
        usedFonts := insertSortedFont BuiltinFont.helvetica page.usedFonts }) }
  | Option.none => s

/-- Builtin-font resource entries of a page. -/
def fontEntriesFor (s : DocState) (usedFonts : List BuiltinFont) :
    List (List Char × PdfObject) :=
  usedFonts.map (fun f =>
    (chars f.pdfName,
     PdfObject.reference ((lookupFontObj s.fontObjIds f).getD ⟨0, 0⟩)))

/-- Image XObject resource entries of a page (`filter_map` over the
pre-allocated ids). -/
def xobjectEntriesFor (s : DocState) (usedImages : List ℕ) :
    List (List Char × PdfObject) :=
  usedImages.filterMap (fun idx =>
    match lookupImageObj s.imageObjIds idx with
    | some ids => some (ids.pdfName, PdfObject.reference ids.xobject)
    | Option.none => Option.none)

/-- The Resources dictionary of a page. -/
def resourcesFor (fontEntries xobjectEntries : List (List Char × PdfObject)) :
    PdfObject :=
  PdfObject.dictionary (PdfDictList.ofList
    ((chars "Font", PdfObject.dictionary (PdfDictList.ofList fontEntries)) ::
     (if xobjectEntries.isEmpty then []
      else
        [(chars "XObject", PdfObject.dictionary (PdfDictList.ofList xobjectEntries))])))

/-- The page dictionary built by `end_page`. -/
def pageDictFor (width height : ℚ) (contents : PdfObject) (resources : PdfObject) :
    PdfObject :=
  PdfObject.dictionary (PdfDictList.ofList
    [(chars "Type", PdfObject.name (chars "Page")),
     (chars "Parent", PdfObject.reference ⟨2, 0⟩),
     (chars "MediaBox", PdfObject.array (PdfObjList.ofList
       [PdfObject.integer 0, PdfObject.integer 0,
        PdfObject.real width, PdfObject.real height])),
     (chars "Contents", contents),
     (chars "Resources", resources)])

/-- `end_page` for a fresh page (the `editing = none` branch): write any
new builtin font objects, pre-write used image XObjects, then the content
stream and the page dictionary. -/
def endPageNew (flate : List Char → List Char) (s : DocState) (page : PageBuilder) :
    DocState :=
  let s1 := page.usedFonts.foldl (fun acc f => (ensureFontWritten acc f).1) s
  let s2 := page.usedImages.foldl (fun acc idx => writeImageXObject flate acc idx) s1
  let contentId : ObjId := ⟨s2.nextObjNum, 0⟩
  let pageId : ObjId := ⟨s2.nextObjNum + 1, 0⟩
  let contentStream := makeStream flate s2.compress [] page.contentOps
  let s3 := { s2 with nextObjNum := s2.nextObjNum + 2,
                      writer := writeObject s2.writer contentId contentStream }
  let fontEntries := fontEntriesFor s3 page.usedFonts
  let xobjectEntries := xobjectEntriesFor s3 page.usedImages
  let pageDict := pageDictFor page.width page.height
    (PdfObject.reference contentId) (resourcesFor fontEntries xobjectEntries)
  { s3 with writer := writeObject s3.writer pageId pageDict,
            pageObjIds := s3.pageObjIds ++ [pageId],
            currentPage := Option.none,
            pageRecords := s3.pageRecords ++
              [{ width := page.width, height := page.height, pageId := pageId,
                 contentIds := [contentId], usedFonts := page.usedFonts,
                 usedImages := page.usedImages }] }

/-- Merge two sorted font sets. -/
def mergeFonts (xs ys : List BuiltinFont) : List BuiltinFont :=
  ys.foldl (fun acc f => insertSortedFont f acc) xs

/-- Merge two sorted index sets. -/
def mergeNats (xs ys : List ℕ) : List ℕ :=
  ys.foldl (fun acc i => insertSortedNat i acc) xs

/-- Modelled from the spec: `end_page` for a re-opened page (the overlay
branch of `end_page`, missing from `src/`).  Writes the overlay bytes as
an additional content stream, merges the page's resources, and supersedes
the page dictionary (same object id, `/Contents` now an array of all
content stream references). -/
def endPageEdit (flate : List Char → List Char) (s : DocState) (page : PageBuilder)
    (pageIdx : ℕ) : DocState :=
  match s.pageRecords.get? pageIdx with
  | Option.none => { s with currentPage := Option.none }
  | some record =>
    let s1 := page.usedFonts.foldl (fun acc f => (ensureFontWritten acc f).1) s
    let s2 := page.usedImages.foldl (fun acc idx => writeImageXObject flate acc idx) s1
    let overlayId : ObjId := ⟨s2.nextObjNum, 0⟩
    let overlayStream := makeStream flate s2.compress [] page.contentOps
    let s3 := { s2 with nextObjNum := s2.nextObjNum + 1,
                        writer := writeObject s2.writer overlayId overlayStream }
    let record' : PageRecord :=
      { record with contentIds := record.contentIds ++ [overlayId],
                    usedFonts := mergeFonts record.usedFonts page.usedFonts,
                    usedImages := mergeNats record.usedImages page.usedImages }
    let fontEntries := fontEntriesFor s3 record'.usedFonts
    let xobjectEntries := xobjectEntriesFor s3 record'.usedImages
    let pageDict := pageDictFor record'.width record'.height
      (PdfObject.array (PdfObjList.ofList
        (record'.contentIds.map PdfObject.reference)))
      (resourcesFor fontEntries xobjectEntries)
    { s3 with writer := writeObject s3.writer record'.pageId pageDict,
              currentPage := Option.none,
              pageRecords := s3.pageRecords.set pageIdx record' }

/-- `end_page` (no-op without an open page; the source panics there). -/
def endPage (flate : List Char → List Char) (s : DocState) : DocState :=
  match s.currentPage with
  | Option.none => s
  | some page =>
    match page.editing with
    | Option.none => endPageNew flate { s with currentPage := Option.none } page
    | some pageIdx => endPageEdit flate { s with currentPage := Option.none } page pageIdx

/-- `begin_page` (auto-closes any open page). -/
def beginPage (flate : List Char → List Char) (s : DocState) (w h : ℚ) : DocState :=
  let s1 := if s.currentPage.isSome then endPage flate s else s
  let pb : PageBuilder :=
    { width := w, height := h, contentOps := [], usedFonts := [],
      usedTTFonts := [], usedImages := [], editing := Option.none }
  { s1 with currentPage := some pb }

/-- Modelled from the spec: `open_page(n)` — 1-based index into the
completed-pages list; auto-closes an open page; out-of-range indices
(0, or past the last page) return an error and leave the document
unchanged and usable.  On success the new builder takes the stored
page's dimensions, and its bytes become an additional content stream at
`end_page`. -/
def openPage (flate : List Char → List Char) (s : DocState) (n : ℕ) :
    Except (List Char) DocState :=
  if n = 0 ∨ s.pageRecords.length < n then
    Except.error (chars "page number out of range")
  else
    let s1 := if s.currentPage.isSome then endPage flate s else s
    match s1.pageRecords.get? (n - 1) with
    | Option.none => Except.error (chars "page number out of range")
    | some record =>
      let pb : PageBuilder :=
        { width := record.width, height := record.height, contentOps := [],
          usedFonts := [], usedTTFonts := [], usedImages := [],
          editing := some (n - 1) }
      Except.ok { s1 with currentPage := some pb }

/-- `page_count` (completed pages). -/
def pageCount (s : DocState) : ℕ := s.pageRecords.length

/-- `end_document` (the modelled operations never load a TrueType face,
so the deferred TrueType pass writes nothing and is omitted): auto-close,
write the Info dictionary, the Pages tree (object 2), the Catalog
(object 1), then xref and trailer. -/
def endDocument (flate : List Char → List Char) (s : DocState) : DocState :=
  let s1 := if s.currentPage.isSome then endPage flate s else s
  let infoResult : DocState × Option ObjId :=
    if ¬s1.info.isEmpty then
      let id : ObjId := ⟨s1.nextObjNum, 0⟩
      let obj := PdfObject.dictionary (PdfDictList.ofList
        (s1.info.map (fun e => (e.1, PdfObject.literalString e.2))))
      ({ s1 with nextObjNum := s1.nextObjNum + 1,
                 writer := writeObject s1.writer id obj }, some id)
    else (s1, Option.none)
  let s2 := infoResult.1
  let pages := PdfObject.dictionary (PdfDictList.ofList
    [(chars "Type", PdfObject.name (chars "Pages")),
     (chars "Kids", PdfObject.array (PdfObjList.ofList
       (s2.pageObjIds.map PdfObject.reference))),
     (chars "Count", PdfObject.integer (s2.pageObjIds.length : ℤ))])
  let s3 := { s2 with writer := writeObject s2.writer ⟨2, 0⟩ pages }
  let catalog := PdfObject.dictionary (PdfDictList.ofList
    [(chars "Type", PdfObject.name (chars "Catalog")),
     (chars "Pages", PdfObject.reference ⟨2, 0⟩)])
  let s4 := { s3 with writer := writeObject s3.writer ⟨1, 0⟩ catalog }
  { s4 with writer := writeXrefAndTrailer s4.writer ⟨1, 0⟩ infoResult.2 }

/-- `fit_textflow`: generate ops against the flow, append them to the
open page, and extend its used-font sets.  Returns the new document, the
advanced flow, and the fit result. -/
def fitTextflow (s : DocState) (flow : TextFlow) (rect : Rect) :
    DocState × TextFlow × FitResult :=
  let r := generateContentOps flow rect s.truetypeFonts
  let flow' := { flow with cursor := r.2.2.2 }
  match s.currentPage with
  | some page =>
    ({ s with currentPage := some ({ page with
        contentOps := page.contentOps ++ r.1,
        usedFonts := mergeFonts page.usedFonts r.2.2.1.builtin,
        usedTTFonts := mergeNats page.usedTTFonts r.2.2.1.truetype }) },
      flow', r.2.1)
  | Option.none => (s, flow', r.2.1)

/-- `fit_row`: generate row ops, append them to the open page, extend its
used-font sets.  Returns the new document, the updated cursor, and the
fit result. -/
def fitRow (s : DocState) (table : Table) (row : Row) (cursor : TableCursor) :
    DocState × TableCursor × FitResult :=
  let r := generateRowOps table row cursor s.truetypeFonts
  match s.currentPage with
  | some page =>
    ({ s with currentPage := some ({ page with
        contentOps := page.contentOps ++ r.1,
        usedFonts := mergeFonts page.usedFonts r.2.2.1.builtin,
        usedTTFonts := mergeNats page.usedTTFonts r.2.2.1.truetype }) },
      r.2.2.2, r.2.1)
  | Option.none => (s, r.2.2.2, r.2.1)

/-- Document operations for trace-level theorems. -/
inductive DocOp where
  | beginPage (w h : ℚ)
  | endPage
  | endDocument
  | setCompression (b : Bool)
  | loadImage (img : ImageData)
  | placeImage (idx : ℕ) (rect : Rect) (fit : ImageFit)
  | placeText (text : List Char) (x y : ℚ)

/-- One step of the assembler. -/
def docStep (flate : List Char → List Char) (s : DocState) : DocOp → DocState
  | .beginPage w h => beginPage flate s w h
  | .endPage => endPage flate s
  | .endDocument => endDocument flate s
  | .setCompression b => { s with compress := b }
  | .loadImage img => (loadImageBytes s img).1
  | .placeImage idx rect fit => placeImage s idx rect fit
  | .placeText text x y => placeText s text x y

/-- Run a trace of document operations. -/
def docRun (flate : List Char → List Char) (s : DocState) : List DocOp → DocState
  | [] => s
  | op :: rest => docRun flate (docStep flate s op) rest

/-- All object numbers an image entry owns (XObject plus optional
SMask). -/
def imageEntryNums (o : ImageObjIds) : List ℕ :=
  o.xobject.num :: (match o.smask with | some i => [i.num] | Option.none => [])

/-- Object numbers of all image entries. -/
def imageNums (s : DocState) : List ℕ :=
  (s.imageObjIds.map (fun p => imageEntryNums p.2)).flatten

/-- Invariant connecting the assembler's image bookkeeping to the writer
log: image object numbers are 3-or-above, below the counter and pairwise
distinct; log entries stay below the counter; image map keys are unique;
written images are allocated; the log holds exactly one object for each
written image's XObject number and none for unwritten ones; and an open
page is always a fresh one (no `DocOp` re-opens a completed page). -/
def ImageInv (s : DocState) : Prop :=
  (imageNums s).Nodup ∧
  (∀ n ∈ imageNums s, 3 ≤ n ∧ n < s.nextObjNum) ∧
  (s.imageObjIds.map Prod.fst).Nodup ∧
  (∀ i ∈ s.writtenImages, (lookupImageObj s.imageObjIds i).isSome) ∧
  (∀ e ∈ s.writer.log, e.1.num < s.nextObjNum) ∧
  (∀ p ∈ s.imageObjIds,
    s.writer.log.countP (fun e => e.1.num == p.2.xobject.num) =
      if p.1 ∈ s.writtenImages then 1 else 0) ∧
  3 ≤ s.nextObjNum ∧
  (∀ page, s.currentPage = some page → page.editing = Option.none)

/-! ## Lemmas about decimal rendering -/

theorem digitVal_digitChar {d : ℕ} (h : d < 10) : digitVal (digitChar d) = d := by
  interval_cases d <;> rfl

theorem isDigit_digitChar {d : ℕ} (h : d < 10) : (digitChar d).isDigit = true := by
  interval_cases d <;> rfl

theorem mem_renderNatAux_isDigit :
    ∀ (fuel n : ℕ) (c : Char), c ∈ renderNatAux fuel n → c.isDigit = true := by
  intro fuel
  induction fuel with
  | zero => intro n c h; simp [renderNatAux] at h
  | succ fuel ih =>
    intro n c h
    by_cases hn : n < 10
    · simp [renderNatAux, hn] at h
      subst h; exact isDigit_digitChar hn
    · simp [renderNatAux, hn] at h
      rcases h with h | h
      · exact ih _ _ h
      · subst h; exact isDigit_digitChar (Nat.mod_lt _ (by norm_num))

theorem mem_renderNat_isDigit {n : ℕ} {c : Char} (h : c ∈ renderNat n) :
    c.isDigit = true := mem_renderNatAux_isDigit _ _ _ h

theorem parseNatAux_append (a b : List Char) (acc : ℕ) :
    parseNatAux (a ++ b) acc = parseNatAux b (parseNatAux a acc) := by
  induction a generalizing acc with
  | nil => rfl
  | cons c cs ih => simp [parseNatAux, ih]

theorem parseNatAux_renderNatAux :
    ∀ (fuel n acc : ℕ), n < 10 ^ fuel →
      parseNatAux (renderNatAux fuel n) acc =
        acc * 10 ^ (renderNatAux fuel n).length + n := by
  intro fuel
  induction fuel with
  | zero =>
    intro n acc h
    interval_cases n
    simp [renderNatAux, parseNatAux]
  | succ fuel ih =>
    intro n acc h
    by_cases hn : n < 10
    · simp [renderNatAux, hn, parseNatAux, digitVal_digitChar hn]
    · have hdiv : n / 10 < 10 ^ fuel := by
        apply Nat.div_lt_of_lt_mul
        calc n < 10 ^ (fuel + 1) := h
          _ = 10 * 10 ^ fuel := by ring
      simp only [renderNatAux, hn, if_false]
      rw [parseNatAux_append, ih _ acc hdiv]
      simp only [parseNatAux, digitVal_digitChar (Nat.mod_lt n (by norm_num : (0:ℕ) < 10)),
        List.length_append, List.length_cons, List.length_nil]
      calc (acc * 10 ^ (renderNatAux fuel (n / 10)).length + n / 10) * 10 + n % 10
          = acc * 10 ^ ((renderNatAux fuel (n / 10)).length + (0 + 1)) +
              (10 * (n / 10) + n % 10) := by
            rw [pow_add]
            ring
        _ = acc * 10 ^ ((renderNatAux fuel (n / 10)).length + (0 + 1)) + n := by
            rw [Nat.div_add_mod]

theorem nat_lt_pow_ten (n : ℕ) : n < 10 ^ (n + 1) := by
  calc n < 10 ^ n := Nat.lt_pow_self (by norm_num) n
    _ ≤ 10 ^ (n + 1) := Nat.pow_le_pow_right (by norm_num) (Nat.le_succ n)

theorem parseNat_renderNat (n : ℕ) : parseNat (renderNat n) = n := by
  unfold parseNat renderNat
  rw [parseNatAux_renderNatAux _ _ _ (nat_lt_pow_ten n)]
  simp

theorem parseNatAux_replicate_zero (k acc : ℕ) :
    parseNatAux (List.replicate k '0') acc = acc * 10 ^ k := by
  induction k generalizing acc with
  | zero => simp [parseNatAux]
  | succ k ih =>
    rw [List.replicate_succ]
    simp only [parseNatAux]
    rw [ih]
    have : digitVal '0' = 0 := rfl
    rw [this]
    ring

theorem parseNat_padZeros (k n : ℕ) : parseNat (padZeros k (renderNat n)) = n := by
  unfold padZeros parseNat
  rw [parseNatAux_append, parseNatAux_replicate_zero]
  have := parseNat_renderNat n
  unfold parseNat at this
  simpa using this

theorem renderNatAux_length_le :
    ∀ (fuel k n : ℕ), n < 10 ^ k → 1 ≤ k → (renderNatAux fuel n).length ≤ k := by
  intro fuel
  induction fuel with
  | zero => intro k n _ _; simp [renderNatAux]
  | succ fuel ih =>
    intro k n h hk
    by_cases hn : n < 10
    · simpa [renderNatAux, hn] using hk
    · have hk2 : 2 ≤ k := by
        by_contra hlt
        push_neg at hlt
        interval_cases k
        simp at h
        omega
      have hdiv : n / 10 < 10 ^ (k - 1) := by
        apply Nat.div_lt_of_lt_mul
        calc n < 10 ^ k := h
          _ = 10 * 10 ^ (k - 1) := by
            rw [← pow_succ']
            congr 1
            omega
      simp only [renderNatAux, hn, if_false, List.length_append, List.length_cons,
        List.length_nil]
      have := ih (k - 1) (n / 10) hdiv (by omega)
      omega

theorem padZeros_length {k : ℕ} {ds : List Char} (h : ds.length ≤ k) :
    (padZeros k ds).length = k := by
  simp [padZeros]
  omega

theorem mem_renderInt {i : ℤ} {c : Char} (h : c ∈ renderInt i) :
    c.isDigit = true ∨ c = '-' := by
  unfold renderInt at h
  by_cases hi : i < 0
  · simp [hi] at h
    rcases h with h | h
    · right; exact h
    · left; exact mem_renderNat_isDigit h
  · simp [hi] at h
    left; exact mem_renderNat_isDigit h

theorem mem_padZeros {k : ℕ} {ds : List Char} {c : Char} (h : c ∈ padZeros k ds) :
    c = '0' ∨ c ∈ ds := by
  unfold padZeros at h
  rcases List.mem_append.1 h with h | h
  · left; exact List.eq_of_mem_replicate h
  · right; exact h

theorem mem_signPart {q : ℚ} {c : Char} (h : c ∈ signPart q) : c = '-' := by
  unfold signPart at h
  by_cases hq : q < 0
  · simp [hq] at h; exact h
  · simp [hq] at h

theorem mem_fixedRender {prec : ℕ} {q : ℚ} {c : Char} (h : c ∈ fixedRender prec q) :
    c.isDigit = true ∨ c = '-' ∨ c = '.' := by
  unfold fixedRender at h
  by_cases hp : prec = 0
  · rw [if_pos hp] at h
    rcases List.mem_append.1 h with h | h
    · right; left; exact mem_signPart h
    · left; exact mem_renderNat_isDigit h
  · rw [if_neg hp] at h
    rcases List.mem_append.1 h with h | h
    · rcases List.mem_append.1 h with h | h
      · right; left; exact mem_signPart h
      · left; exact mem_renderNat_isDigit h
    · rcases List.mem_cons.1 h with h | h
      · right; right; exact h
      · rcases mem_padZeros h with h0 | h0
        · left; rw [h0]; rfl
        · left; exact mem_renderNat_isDigit h0

theorem mem_trimTrailing {ch : Char} {xs : List Char} {c : Char}
    (h : c ∈ trimTrailing ch xs) : c ∈ xs := by
  unfold trimTrailing at h
  rw [List.mem_reverse] at h
  have := (List.dropWhile_sublist (fun x => x = ch)).mem h
  rwa [List.mem_reverse] at this

theorem roundHalfEven_intCast (z : ℤ) : roundHalfEven ((z : ℚ)) = z := by
  unfold roundHalfEven
  simp [Int.floor_intCast]

/-- `fixedRender 1` on an integer-valued rational yields the integer's
decimal digits followed by `.0`. -/
theorem fixedRender_one_int {q : ℚ} (h : q = (⌊q⌋ : ℚ)) :
    fixedRender 1 q = renderInt ⌊q⌋ ++ ['.', '0'] := by
  have hscaled : fixedScaled 1 q = 10 * ⌊q⌋.natAbs := by
    unfold fixedScaled
    have hscale : q * (10 : ℚ) ^ 1 = ((10 * ⌊q⌋ : ℤ) : ℚ) := by
      rw [pow_one, h, Int.floor_intCast]
      push_cast
      ring
    rw [hscale, roundHalfEven_intCast]
    simp [Int.natAbs_mul]
  have hdiv : fixedScaled 1 q / 10 ^ 1 = ⌊q⌋.natAbs := by
    rw [hscaled]; simp
  have hmod : fixedScaled 1 q % 10 ^ 1 = 0 := by
    rw [hscaled]; simp
  unfold fixedRender
  rw [if_neg (by norm_num), hdiv, hmod]
  have hneg : q < 0 ↔ ⌊q⌋ < 0 := by
    constructor
    · intro hq; rw [h] at hq; exact_mod_cast hq
    · intro hq; rw [h]; exact_mod_cast hq
  unfold signPart renderInt
  by_cases hq : q < 0
  · rw [if_pos hq, if_pos (hneg.1 hq)]
    rfl
  · rw [if_neg hq, if_neg (fun hc => hq (hneg.2 hc))]
    rfl

/-! ## Claim C3: `format_real` output shape -/

/-- C3, counterexample: `format_real` applied to the f64 value `2 + 2^-22`
(exactly representable in binary) produces the text `2`, which contains no
decimal point — refuting the claim that every serialized `Real` contains
a decimal point. -/
theorem C3_counterexample :
    formatReal (2 + 1/2^22) = ['2'] ∧ '.' ∉ formatReal (2 + 1/2^22) := by
  have hmul : ((2:ℚ) + 1/2^22) * (10:ℚ)^6 = 2000000 + 15625/65536 := by norm_num
  have hfloor6 : ⌊((2:ℚ) + 1/2^22) * (10:ℚ)^6⌋ = 2000000 := by
    rw [hmul, Int.floor_eq_iff] <;> norm_num
  have hscaled : fixedScaled 6 (2 + 1/2^22 : ℚ) = 2000000 := by
    unfold fixedScaled roundHalfEven
    rw [hfloor6, hmul, if_pos (by norm_num)]
    rfl
  have hfl : ⌊(2 + 1/2^22 : ℚ)⌋ = 2 := by
    rw [Int.floor_eq_iff] <;> norm_num
  have hne : ¬((2 + 1/2^22 : ℚ) = (⌊(2 + 1/2^22 : ℚ)⌋ : ℚ) ∧
      |(2 + 1/2^22 : ℚ)| < 10 ^ 15) := by
    rintro ⟨h1, -⟩
    rw [hfl] at h1
    norm_num at h1
  have hfr : fixedRender 6 (2 + 1/2^22 : ℚ) =
      '2' :: '.' :: padZeros 6 (renderNat 0) := by
    unfold fixedRender signPart
    rw [if_neg (by norm_num), hscaled]
    rw [if_neg (by norm_num : ¬(2 + 1/2^22 : ℚ) < 0)]
    norm_num
    decide
  have hmain : formatReal (2 + 1/2^22 : ℚ) = ['2'] := by
    unfold formatReal
    rw [if_neg hne, hfr]
    rfl
  refine ⟨hmain, ?_⟩
  rw [hmain]
  decide

/-- C3, amended claim: every character `format_real` emits is a digit, a
minus sign, or a dot (so exponential notation never appears); when the
value equals its floor and has magnitude below 1e15 the output is the
integer followed by `.0` (and thus carries a decimal point); otherwise the
output is the value rendered to 6 decimals with trailing zeros and a
trailing dot trimmed — which, as the counterexample shows, can lose the
decimal point entirely. -/
theorem C3_formatReal_spec (q : ℚ) :
    (∀ c ∈ formatReal q, c.isDigit = true ∨ c = '-' ∨ c = '.') ∧
    (q = (⌊q⌋ : ℚ) ∧ |q| < 10 ^ 15 → formatReal q = renderInt ⌊q⌋ ++ ['.', '0']) ∧
    (¬(q = (⌊q⌋ : ℚ) ∧ |q| < 10 ^ 15) →
      formatReal q = trimTrailing '.' (trimTrailing '0' (fixedRender 6 q))) := by
  refine ⟨?_, ?_, ?_⟩
  · intro c hc
    unfold formatReal at hc
    by_cases h : q = (⌊q⌋ : ℚ) ∧ |q| < 10 ^ 15
    · rw [if_pos h] at hc
      exact mem_fixedRender hc
    · rw [if_neg h] at hc
      exact mem_fixedRender (mem_trimTrailing (mem_trimTrailing hc))
  · intro h
    unfold formatReal
    rw [if_pos h]
    exact fixedRender_one_int h.1
  · intro h
    unfold formatReal
    rw [if_neg h]

/-- C3 witness: the integer-valued real 612 formats as `612.0`. -/
theorem C3_formatReal_spec_witness :
    formatReal (612 : ℚ) = renderInt ⌊(612 : ℚ)⌋ ++ ['.', '0'] :=
  (C3_formatReal_spec 612).2.1 ⟨by norm_num, by norm_num⟩

/-! ## Lemmas about `break_word` -/

theorem scanBreakAux_spec (μ : List Char → ℚ) (budget : ℚ) :
    ∀ (rest pre : List Char) (k bytes : ℕ) (pw : ℚ),
      ∃ j ≤ rest.length,
        scanBreakAux μ budget rest pre k bytes pw =
          (k + j, bytes + utf8Len (rest.take j)) := by
  intro rest
  induction rest with
  | nil =>
    intro pre k bytes pw
    exact ⟨0, by simp, by simp [scanBreakAux, utf8Len]⟩
  | cons ch rest ih =>
    intro pre k bytes pw
    unfold scanBreakAux
    by_cases h1 : μ (pre ++ [ch]) - pw + pw > budget ∧ 0 < bytes
    · exact ⟨0, by simp, by rw [if_pos h1]; simp [utf8Len]⟩
    · rw [if_neg h1]
      by_cases h2 : budget ≤ pw + (μ (pre ++ [ch]) - pw)
      · refine ⟨1, by simp, ?_⟩
        rw [if_pos h2]
        simp [utf8Len]
      · rw [if_neg h2]
        obtain ⟨j, hj, heq⟩ := ih (pre ++ [ch]) (k + 1) (bytes + ch.utf8Size)
          (pw + (μ (pre ++ [ch]) - pw))
        refine ⟨j + 1, by simp; omega, ?_⟩
        rw [heq]
        simp [utf8Len]
        constructor
        · omega
        · ring

theorem scanBreak_spec (μ : List Char → ℚ) (budget : ℚ) (word : List Char) :
    (scanBreak μ budget word).1 ≤ word.length ∧
      (scanBreak μ budget word).2 =
        utf8Len (word.take (scanBreak μ budget word).1) := by
  obtain ⟨j, hj, heq⟩ := scanBreakAux_spec μ budget word [] 0 0 0
  unfold scanBreak
  rw [heq]
  simpa using hj

theorem breakPieceLen_pos {μ : List Char → ℚ} {budget : ℚ} {remaining : List Char}
    (h : remaining ≠ []) : 1 ≤ breakPieceLen μ budget remaining := by
  unfold breakPieceLen
  by_cases h0 : (scanBreak μ budget remaining).1 = 0
  · rw [if_pos h0]
    have : 1 ≤ remaining.length := by
      cases remaining with
      | nil => exact absurd rfl h
      | cons a l => simp
    omega
  · rw [if_neg h0]
    omega

theorem breakPieceLen_le (μ : List Char → ℚ) (budget : ℚ) (remaining : List Char) :
    breakPieceLen μ budget remaining ≤ remaining.length := by
  unfold breakPieceLen
  by_cases h0 : (scanBreak μ budget remaining).1 = 0
  · rw [if_pos h0]; omega
  · rw [if_neg h0]; exact (scanBreak_spec μ budget remaining).1

theorem breakWordAux_length_le (μ : List Char → ℚ) (budget : ℚ) (mode : WordBreak) :
    ∀ (fuel : ℕ) (remaining : List Char),
      (breakWordAux μ budget mode fuel remaining).length ≤ remaining.length := by
  intro fuel
  induction fuel with
  | zero => intro remaining; simp [breakWordAux]
  | succ fuel ih =>
    intro remaining
    cases remaining with
    | nil => simp [breakWordAux]
    | cons ch rest =>
      have hpos : 1 ≤ breakPieceLen μ budget (ch :: rest) :=
        breakPieceLen_pos (by simp)
      simp only [breakWordAux, List.length_cons]
      have := ih ((ch :: rest).drop (breakPieceLen μ budget (ch :: rest)))
      have hdlen : ((ch :: rest).drop (breakPieceLen μ budget (ch :: rest))).length =
          (ch :: rest).length - breakPieceLen μ budget (ch :: rest) := by
        simp
      rw [hdlen] at this
      simp only [List.length_cons] at this
      omega

theorem breakWordAux_ne_nil {μ : List Char → ℚ} {budget : ℚ} {mode : WordBreak}
    {fuel : ℕ} {remaining : List Char} (h : remaining ≠ []) (hf : 1 ≤ fuel) :
    breakWordAux μ budget mode fuel remaining ≠ [] := by
  cases fuel with
  | zero => omega
  | succ fuel =>
    cases remaining with
    | nil => exact absurd rfl h
    | cons ch rest => simp [breakWordAux]

theorem breakWordAux_reassemble (μ : List Char → ℚ) (budget : ℚ) (mode : WordBreak) :
    ∀ (fuel : ℕ) (remaining : List Char), remaining.length ≤ fuel →
      reassemble mode (breakWordAux μ budget mode fuel remaining) = remaining := by
  intro fuel
  induction fuel with
  | zero =>
    intro remaining h
    have : remaining = [] := List.length_eq_zero.1 (Nat.le_zero.1 h)
    subst this
    rfl
  | succ fuel ih =>
    intro remaining h
    cases remaining with
    | nil => rfl
    | cons ch rest =>
      have hpos : 1 ≤ breakPieceLen μ budget (ch :: rest) :=
        breakPieceLen_pos (by simp)
      have hle : breakPieceLen μ budget (ch :: rest) ≤ (ch :: rest).length :=
        breakPieceLen_le μ budget (ch :: rest)
      simp only [breakWordAux]
      by_cases hlast : (ch :: rest).length ≤ breakPieceLen μ budget (ch :: rest)
      · have hkp : breakPieceLen μ budget (ch :: rest) = (ch :: rest).length := by omega
        have hdrop : (ch :: rest).drop (breakPieceLen μ budget (ch :: rest)) = [] := by
          rw [hkp]
          simp
        have htake : (ch :: rest).take (breakPieceLen μ budget (ch :: rest)) = ch :: rest := by
          rw [hkp]
          simp
        rw [hdrop]
        have hnil : breakWordAux μ budget mode fuel [] = [] := by
          cases fuel <;> rfl
        rw [hnil]
        rw [if_neg (fun hc => hc.1 hlast)]
        rw [htake]
        rfl
      · have hdne : (ch :: rest).drop (breakPieceLen μ budget (ch :: rest)) ≠ [] := by
          intro hc
          have hlc := congrArg List.length hc
          rw [List.length_drop] at hlc
          simp only [List.length_cons, List.length_nil] at hlc hlast
          omega
        have hlen1 : (ch :: rest).length = rest.length + 1 := by simp
        have hflen : ((ch :: rest).drop (breakPieceLen μ budget (ch :: rest))).length ≤ fuel := by
          rw [List.length_drop]
          rw [hlen1] at h hle
          omega
        have hrec := ih _ hflen
        have hne : breakWordAux μ budget mode fuel
            ((ch :: rest).drop (breakPieceLen μ budget (ch :: rest))) ≠ [] := by
          apply breakWordAux_ne_nil hdne
          have h1 : 1 ≤ ((ch :: rest).drop (breakPieceLen μ budget (ch :: rest))).length :=
            Nat.one_le_iff_ne_zero.2 (fun hc => hdne (List.length_eq_zero.1 hc))
          omega
        obtain ⟨p2, ps2, heq2⟩ := List.exists_cons_of_ne_nil hne
        rw [heq2]
        by_cases hmode : mode = WordBreak.hyphenate
        · rw [if_pos ⟨hlast, hmode⟩]
          show reassemble mode (_ :: p2 :: ps2) = _
          unfold reassemble
          rw [if_pos hmode]
          rw [← heq2, hrec]
          rw [List.dropLast_concat]
          exact List.take_append_drop _ _
        · rw [if_neg (by
            intro hc
            exact hmode hc.2)]
          show reassemble mode (_ :: p2 :: ps2) = _
          unfold reassemble
          rw [if_neg hmode]
          rw [← heq2, hrec]
          exact List.take_append_drop _ _

theorem breakWordAux_all_ne_nil (μ : List Char → ℚ) (budget : ℚ) (mode : WordBreak) :
    ∀ (fuel : ℕ) (remaining : List Char) (p : List Char),
      p ∈ breakWordAux μ budget mode fuel remaining → p ≠ [] := by
  intro fuel
  induction fuel with
  | zero => intro remaining p hp; simp [breakWordAux] at hp
  | succ fuel ih =>
    intro remaining p hp
    cases remaining with
    | nil => simp [breakWordAux] at hp
    | cons ch rest =>
      simp only [breakWordAux, List.mem_cons] at hp
      rcases hp with hp | hp
      · subst hp
        have hpos : 1 ≤ breakPieceLen μ budget (ch :: rest) :=
          breakPieceLen_pos (by simp)
        by_cases hc : ¬(ch :: rest).length ≤ breakPieceLen μ budget (ch :: rest) ∧
            mode = WordBreak.hyphenate
        · rw [if_pos hc]
          simp
        · rw [if_neg hc]
          intro hnil
          have := congrArg List.length hnil
          simp at this
          omega
      · exact ih _ _ hp

/-! ## Claim C4: break pieces reassemble to the original word -/

/-- C4: for every word, available width, style and break mode,
concatenating the pieces returned by `break_word` — after dropping the
trailing `-` from every non-last piece when the mode is Hyphenate —
yields exactly the original word. -/
theorem C4_breakWord_reassemble (word : List Char) (availWidth : ℚ)
    (style : TextStyle) (mode : WordBreak) (ttFonts : List TrueTypeFont) :
    reassemble mode (breakWord word availWidth style mode ttFonts) = word :=
  breakWordAux_reassemble _ _ mode word.length word le_rfl

/-! ## Claim C5: break_word termination, progress, and UTF-8 boundaries -/

/-- C5: `break_word` is total (defined with fuel `word.length`, which the
reassembly theorem shows is never exhausted since every piece consumes at
least one codepoint); it returns at most one piece per codepoint of the
input, every returned piece is nonempty, and the byte position at which
the source slices the remainder (`prefix_end`) is always the total UTF-8
size of a codepoint prefix — a codepoint boundary — for every budget. -/
theorem C5_breakWord_progress (word : List Char) (availWidth : ℚ)
    (style : TextStyle) (mode : WordBreak) (ttFonts : List TrueTypeFont) :
    (breakWord word availWidth style mode ttFonts).length ≤ word.length ∧
    (∀ p ∈ breakWord word availWidth style mode ttFonts, p ≠ []) ∧
    (∀ budget : ℚ,
      (scanBreak (fun cs => measureWord cs style ttFonts) budget word).2 =
        utf8Len (word.take
          (scanBreak (fun cs => measureWord cs style ttFonts) budget word).1)) := by
  refine ⟨breakWordAux_length_le _ _ _ _ _, ?_, ?_⟩
  · intro p hp
    exact breakWordAux_all_ne_nil _ _ _ _ _ _ hp
  · intro budget
    exact (scanBreak_spec _ budget word).2

/-- C5 witness: a concrete two-codepoint word under a concrete style
stays within the piece bound, and the piece it returns is nonempty. -/
theorem C5_breakWord_progress_witness :
    (breakWord ['a', 'b'] 1 ⟨FontRef.truetype 0, 12⟩
        WordBreak.breakAll []).length ≤ 2 ∧
    (['a', 'b'] : List Char) ≠ [] := by
  have h := C5_breakWord_progress ['a', 'b'] 1 ⟨FontRef.truetype 0, 12⟩
    WordBreak.breakAll []
  refine ⟨h.1, h.2.1 ['a', 'b'] ?_⟩
  simp [breakWord, breakWordMeasured, breakWordAux, breakPieceLen, scanBreak,
    scanBreakAux, measureWord, TrueTypeFont.measureText,
    TrueTypeFont.charWidthPdf, fallbackTTFont]
  norm_num

/-! ## Lemmas about the low-level writer -/

theorem writeObject_output (s : WriterState) (id : ObjId) (obj : PdfObject) :
    (writeObject s id obj).output = s.output ++ objChunk id obj := by
  simp [writeObject, writeBytes, objChunk]

theorem writeObject_offset (s : WriterState) (id : ObjId) (obj : PdfObject) :
    (writeObject s id obj).offset = s.offset + (objChunk id obj).length := by
  simp [writeObject, writeBytes, objChunk]
  ring

theorem writeObject_xref (s : WriterState) (id : ObjId) (obj : PdfObject) :
    (writeObject s id obj).xref = s.xref ++ [(id.num, s.offset)] := rfl

theorem writeObject_log (s : WriterState) (id : ObjId) (obj : PdfObject) :
    (writeObject s id obj).log = s.log ++ [(id, obj)] := rfl

theorem startsAt_mono {out more : List Char} {off : ℕ} {pat : List Char}
    (h : startsAt out off pat) : startsAt (out ++ more) off pat := by
  unfold startsAt at h ⊢
  have hlen : pat.length ≤ (out.drop off).length := by
    have := congrArg List.length h
    rw [List.length_take] at this
    omega
  rw [List.drop_append_eq_append_drop, List.take_append_eq_append_take, h]
  have h0 : pat.length - (out.drop off).length = 0 := by omega
  rw [h0]
  simp

theorem startsAt_of_append (out pat rest : List Char) :
    startsAt (out ++ (pat ++ rest)) out.length pat := by
  unfold startsAt
  rw [List.drop_left]
  rw [List.take_append_eq_append_take]
  simp

theorem writerInv_headerState : WriterInv headerState := by
  refine ⟨by simp [headerState, writeHeader, writeBytes, initWriter], rfl, ?_⟩
  intro p hp
  simp [headerState, writeHeader, writeBytes, initWriter] at hp

theorem writerInv_writeObject {s : WriterState} (h : WriterInv s)
    (id : ObjId) (obj : PdfObject) : WriterInv (writeObject s id obj) := by
  obtain ⟨h1, h2, h3⟩ := h
  have hlen : s.xref.length = s.log.length := by
    have := congrArg List.length h2
    simpa using this
  refine ⟨?_, ?_, ?_⟩
  · rw [writeObject_offset, writeObject_output, h1]
    simp
  · rw [writeObject_xref, writeObject_log]
    simp [h2]
  · rw [writeObject_xref, writeObject_log, writeObject_output]
    intro p hp
    rw [List.zip_append hlen] at hp
    rcases List.mem_append.1 hp with hp | hp
    · obtain ⟨hnum, hstart⟩ := h3 p hp
      exact ⟨hnum, startsAt_mono hstart⟩
    · simp at hp
      subst hp
      refine ⟨rfl, ?_⟩
      show startsAt _ s.offset (objHeader id)
      rw [h1]
      have : s.output ++ objChunk id obj =
          s.output ++ (objHeader id ++ (serializePdfObject obj ++ chars "\nendobj\n")) := by
        unfold objChunk
        simp
      rw [this]
      exact startsAt_of_append _ _ _

theorem writerInv_runWrites {s : WriterState} (h : WriterInv s) :
    ∀ tr : List (ObjId × PdfObject), WriterInv (runWrites s tr) := by
  intro tr
  induction tr generalizing s with
  | nil => exact h
  | cons e rest ih =>
    cases e with
    | mk id obj => exact ih (writerInv_writeObject h id obj)

theorem runWrites_log (s : WriterState) :
    ∀ tr : List (ObjId × PdfObject), (runWrites s tr).log = s.log ++ tr := by
  intro tr
  induction tr generalizing s with
  | nil => simp [runWrites]
  | cons e rest ih =>
    cases e with
    | mk id obj =>
      show (runWrites (writeObject s id obj) rest).log = _
      rw [ih, writeObject_log]
      simp

theorem lookupOffset_mapInsert_self (m : List (ℕ × ℕ)) (k v : ℕ) :
    lookupOffset (mapInsert m k v) k = some v := by
  simp [lookupOffset, mapInsert, List.find?]

theorem lookupOffset_mapInsert_ne (m : List (ℕ × ℕ)) {k' k : ℕ} (v : ℕ) (h : k' ≠ k) :
    lookupOffset (mapInsert m k v) k' = lookupOffset m k' := by
  simp only [lookupOffset, mapInsert, List.find?]
  have : (k == k') = false := by
    simp
    omega
  rw [this]

theorem lookup_foldl_mem :
    ∀ (xs : List (ℕ × ℕ)) (m : List (ℕ × ℕ)) (k v : ℕ),
      lookupOffset (xs.foldl (fun m e => mapInsert m e.1 e.2) m) k = some v →
      (k, v) ∈ xs ∨ lookupOffset m k = some v := by
  intro xs
  induction xs with
  | nil => intro m k v h; right; exact h
  | cons e rest ih =>
    intro m k v h
    rw [List.foldl_cons] at h
    rcases ih _ _ _ h with h' | h'
    · left; exact List.mem_cons_of_mem _ h'
    · by_cases hk : k = e.1
      · subst hk
        rw [lookupOffset_mapInsert_self] at h'
        left
        have hv2 : e.2 = v := by injection h'
        rw [← hv2]
        exact List.mem_cons_self _ _
      · right
        rwa [lookupOffset_mapInsert_ne _ _ hk] at h'

theorem lookup_foldl_isSome :
    ∀ (xs : List (ℕ × ℕ)) (m : List (ℕ × ℕ)) (k : ℕ),
      ((∃ v, (k, v) ∈ xs) ∨ (∃ v, lookupOffset m k = some v)) →
      ∃ v, lookupOffset (xs.foldl (fun m e => mapInsert m e.1 e.2) m) k = some v := by
  intro xs
  induction xs with
  | nil =>
    intro m k h
    rcases h with ⟨v, hv⟩ | h
    · simp at hv
    · exact h
  | cons e rest ih =>
    intro m k h
    rw [List.foldl_cons]
    apply ih
    rcases h with ⟨v, hv⟩ | ⟨v, hv⟩
    · rcases List.mem_cons.1 hv with hv | hv
      · right
        refine ⟨e.2, ?_⟩
        have : k = e.1 := by
          have := congrArg Prod.fst hv
          simpa using this
        rw [this]
        exact lookupOffset_mapInsert_self _ _ _
      · left; exact ⟨v, hv⟩
    · right
      by_cases hk : k = e.1
      · exact ⟨e.2, by rw [hk]; exact lookupOffset_mapInsert_self _ _ _⟩
      · exact ⟨v, by rwa [lookupOffset_mapInsert_ne _ _ hk]⟩

instance : IsTotal (ℕ × ℕ) (fun a b => a.1 ≤ b.1) :=
  ⟨fun a b => Nat.le_total a.1 b.1⟩

instance : IsTrans (ℕ × ℕ) (fun a b => a.1 ≤ b.1) :=
  ⟨fun _ _ _ h₁ h₂ => Nat.le_trans h₁ h₂⟩

theorem mem_sortXref {a : ℕ × ℕ} {xs : List (ℕ × ℕ)} :
    a ∈ sortXref xs ↔ a ∈ xs :=
  (List.perm_insertionSort _ xs).mem_iff

theorem sortXref_map_fst (xs : List (ℕ × ℕ)) :
    List.Perm ((sortXref xs).map Prod.fst) (xs.map Prod.fst) :=
  (List.perm_insertionSort _ xs).map _

theorem nodupKeys_mem_unique :
    ∀ {xs : List (ℕ × ℕ)} {k v v' : ℕ}, (xs.map Prod.fst).Nodup →
      (k, v) ∈ xs → (k, v') ∈ xs → v = v' := by
  intro xs
  induction xs with
  | nil => intro k v v' _ h; simp at h
  | cons e rest ih =>
    intro k v v' hnodup h1 h2
    rw [List.map_cons, List.nodup_cons] at hnodup
    rcases List.mem_cons.1 h1 with h1 | h1 <;> rcases List.mem_cons.1 h2 with h2 | h2
    · rw [← h1] at h2
      injection h2 with ha hb
      exact hb.symm
    · exfalso
      have hk : e.1 = k := by rw [← h1]
      apply hnodup.1
      rw [hk]
      exact List.mem_map_of_mem Prod.fst h2
    · exfalso
      have hk : e.1 = k := by rw [← h2]
      apply hnodup.1
      rw [hk]
      exact List.mem_map_of_mem Prod.fst h1
    · exact ih hnodup.2 h1 h2

theorem exists_zip_right {α β : Type} :
    ∀ (l₁ : List α) (l₂ : List β), l₁.length = l₂.length →
      ∀ b ∈ l₂, ∃ a, (a, b) ∈ l₁.zip l₂ := by
  intro l₁
  induction l₁ with
  | nil =>
    intro l₂ hlen b hb
    cases l₂ with
    | nil => simp at hb
    | cons y t => simp at hlen
  | cons x t ih =>
    intro l₂ hlen b hb
    cases l₂ with
    | nil => simp at hb
    | cons y t' =>
      rcases List.mem_cons.1 hb with hb | hb
      · subst hb
        exact ⟨x, by simp [List.zip_cons_cons]⟩
      · obtain ⟨a, ha⟩ := ih t' (by simpa using hlen) b hb
        exact ⟨a, by simp [List.zip_cons_cons, ha]⟩

theorem sorted_le_getLast :
    ∀ (l : List (ℕ × ℕ)), l.Sorted (fun a b => a.1 ≤ b.1) →
      ∀ a ∈ l, ∀ (h : l ≠ []), a.1 ≤ (l.getLast h).1 := by
  intro l
  induction l with
  | nil => intro _ a ha; simp at ha
  | cons x t ih =>
    intro hsorted a ha hne
    cases t with
    | nil =>
      simp at ha
      subst ha
      simp [List.getLast]
    | cons y t' =>
      have htne : y :: t' ≠ [] := by simp
      rw [List.getLast_cons htne]
      rcases List.mem_cons.1 ha with ha | ha
      · subst ha
        have := List.rel_of_sorted_cons hsorted
        exact this _ (List.getLast_mem htne)
      · exact ih (List.Sorted.of_cons hsorted) a ha htne

theorem mem_le_maxObjNum {n off : ℕ} {xs : List (ℕ × ℕ)} (h : (n, off) ∈ xs) :
    n ≤ maxObjNum xs := by
  have hmem : (n, off) ∈ sortXref xs := mem_sortXref.2 h
  have hne : sortXref xs ≠ [] := by
    intro hc
    rw [hc] at hmem
    simp at hmem
  have hsorted : (sortXref xs).Sorted (fun a b => a.1 ≤ b.1) :=
    List.sorted_insertionSort _ xs
  have hle := sorted_le_getLast _ hsorted _ hmem hne
  unfold maxObjNum
  rw [List.getLast?_eq_getLast _ hne]
  simpa using hle

/-! ## Claim C1: xref offsets point at object headers -/

/-- C1: in a produced file (writer seeded by `write_header`, then any
sequence of `write_object` calls with pairwise distinct object numbers),
for every written object the entry the xref table carries for its number
is the in-use entry holding that object's recorded offset (entries for
numbers 1..max, in sorted order); the recorded offset, read back from the
10 zero-padded digits, is exactly the byte position at which `N G obj`
for that object begins in the output. -/
theorem C1_xref_offsets (trace : List (ObjId × PdfObject))
    (hnodup : (trace.map (fun e => e.1.num)).Nodup) :
    ∀ e ∈ trace, ∃ off,
      lookupOffset
        (buildOffsetMap (sortXref (runWrites headerState trace).xref)) e.1.num
        = some off ∧
      xrefEntryFor (runWrites headerState trace).xref e.1.num = xrefEntryInUse off ∧
      e.1.num ≤ maxObjNum (runWrites headerState trace).xref ∧
      startsAt (runWrites headerState trace).output off (objHeader e.1) ∧
      (off < 10 ^ 10 → parseNat ((xrefEntryInUse off).take 10) = off) := by
  intro e he
  set final := runWrites headerState trace with hfinal
  have hinv : WriterInv final := writerInv_runWrites writerInv_headerState trace
  obtain ⟨hoff, hkeys, hzip⟩ := hinv
  have hlog : final.log = trace := by
    rw [hfinal, runWrites_log]
    rfl
  have hlen : final.xref.length = final.log.length := by
    have := congrArg List.length hkeys
    simpa using this
  -- locate e in the log and pick its partner xref entry
  have helog : e ∈ final.log := by rw [hlog]; exact he
  obtain ⟨a, hpair⟩ := exists_zip_right final.xref final.log hlen e helog
  obtain ⟨hnum, hstart⟩ := hzip _ hpair
  have hmemx : (e.1.num, a.2) ∈ final.xref := by
    have hax : a ∈ final.xref := (List.of_mem_zip hpair).1
    have : a = (e.1.num, a.2) := by
      apply Prod.ext
      · exact hnum
      · rfl
    rwa [this] at hax
  -- keys of the xref are exactly the trace numbers, hence nodup
  have hnodupkeys : (final.xref.map Prod.fst).Nodup := by
    rw [hkeys, hlog]
    exact hnodup
  have hnodupsorted : ((sortXref final.xref).map Prod.fst).Nodup :=
    (sortXref_map_fst final.xref).nodup_iff.2 hnodupkeys
  -- the offset map binds e.1.num, necessarily to a.2
  obtain ⟨v, hv⟩ := lookup_foldl_isSome (sortXref final.xref) [] e.1.num
    (Or.inl ⟨a.2, mem_sortXref.2 hmemx⟩)
  have hvmem : (e.1.num, v) ∈ sortXref final.xref := by
    rcases lookup_foldl_mem _ _ _ _ hv with h | h
    · exact h
    · simp [lookupOffset, List.find?] at h
  have hveq : v = a.2 :=
    nodupKeys_mem_unique hnodupsorted hvmem (mem_sortXref.2 hmemx)
  subst hveq
  have hv' : lookupOffset (buildOffsetMap (sortXref final.xref)) e.1.num = some a.2 := hv
  refine ⟨a.2, hv', ?_, mem_le_maxObjNum hmemx, hstart, ?_⟩
  · unfold xrefEntryFor
    rw [hv']
  · intro hlt
    unfold xrefEntryInUse
    have hdlen : (renderNat a.2).length ≤ 10 := by
      apply renderNatAux_length_le _ 10 _ hlt
      norm_num
    have hplen : (padZeros 10 (renderNat a.2)).length = 10 := padZeros_length hdlen
    rw [List.take_append_eq_append_take, hplen]
    simp only [Nat.sub_self, List.take_zero, List.append_nil]
    have h10 : (padZeros 10 (renderNat a.2)).take 10 = padZeros 10 (renderNat a.2) :=
      List.take_of_length_le (le_of_eq hplen)
    rw [h10]
    exact parseNat_padZeros 10 a.2

/-- C1 witness: writing a single `Catalog` name object after the header
records offset 15 (the header's byte length), the offset map binds
object 1 to it, and the 10-digit entry reads back as 15. -/
theorem C1_xref_offsets_witness :
    parseNat ((xrefEntryInUse 15).take 10) = 15 ∧
    lookupOffset (buildOffsetMap (sortXref (runWrites headerState
      [(⟨1, 0⟩, PdfObject.name (chars "Catalog"))]).xref)) 1 = some 15 := by
  obtain ⟨off, h1, h2, h3, h4, h5⟩ := C1_xref_offsets
    [(⟨1, 0⟩, PdfObject.name (chars "Catalog"))] (by decide) _
    (List.mem_cons_self _ _)
  have hcomp : lookupOffset (buildOffsetMap (sortXref (runWrites headerState
      [(⟨1, 0⟩, PdfObject.name (chars "Catalog"))]).xref)) 1 = some 15 := by decide
  have hoff : off = 15 := by
    rw [h1] at hcomp
    injection hcomp
  subst hoff
  exact ⟨h5 (by norm_num), hcomp⟩

/-! ## Claims C6 and C10: `fit_row` rejection path and cursor framing -/

theorem generateRowOps_reject {table : Table} {row : Row} {cursor : TableCursor}
    {ttFonts : List TrueTypeFont}
    (h : cursor.currentY - measureRowHeight row table.columns table.defaultStyle ttFonts <
      cursor.rect.y - cursor.rect.height) :
    generateRowOps table row cursor ttFonts =
      ([], (if cursor.firstRow then FitResult.boxEmpty else FitResult.boxFull),
        UsedFonts.empty, cursor) := by
  unfold generateRowOps
  rw [if_pos h]

theorem mergeFonts_nil (xs : List BuiltinFont) : mergeFonts xs [] = xs := rfl

theorem mergeNats_nil (xs : List ℕ) : mergeNats xs [] = xs := rfl

/-- C6: when the computed row height does not fit the cursor's remaining
vertical space, `fit_row` returns `BoxEmpty` when the cursor's first-row
flag is set and `BoxFull` otherwise, and appends zero bytes to the open
page's content stream (the document is returned unchanged). -/
theorem C6_fitRow_reject (s : DocState) (table : Table) (row : Row)
    (cursor : TableCursor) (page : PageBuilder)
    (hp : s.currentPage = some page)
    (h : cursor.currentY - measureRowHeight row table.columns table.defaultStyle
      s.truetypeFonts < cursor.rect.y - cursor.rect.height) :
    (generateRowOps table row cursor s.truetypeFonts).1 = [] ∧
    (fitRow s table row cursor).2.2 =
      (if cursor.firstRow then FitResult.boxEmpty else FitResult.boxFull) ∧
    (fitRow s table row cursor).1 = s := by
  have hg := generateRowOps_reject h
  refine ⟨by rw [hg], ?_, ?_⟩
  · unfold fitRow
    rw [hg, hp]
  · unfold fitRow
    rw [hg, hp]
    show ({ s with currentPage := some ({ page with
      contentOps := page.contentOps ++ [],
      usedFonts := mergeFonts page.usedFonts UsedFonts.empty.builtin,
      usedTTFonts := mergeNats page.usedTTFonts UsedFonts.empty.truetype }) }) = s
    rw [show UsedFonts.empty.builtin = [] from rfl,
      show UsedFonts.empty.truetype = [] from rfl,
      mergeFonts_nil, mergeNats_nil, List.append_nil]
    rw [← hp]

/-- C6 witness: a fixed-height 50pt row against a 5pt-tall rect with the
first-row flag set returns `BoxEmpty` and leaves the document unchanged. -/
theorem C6_fitRow_reject_witness :
    (fitRow (beginPage (fun d => d) docInit 612 792)
        ⟨[100], defaultCellStyle, ⟨0, 0, 0⟩, 1/2⟩
        ⟨[], Option.none, some 50⟩
        ⟨⟨0, 10, 100, 5⟩, 10, true⟩).2.2 =
      (if (true : Bool) then FitResult.boxEmpty else FitResult.boxFull) ∧
    (fitRow (beginPage (fun d => d) docInit 612 792)
        ⟨[100], defaultCellStyle, ⟨0, 0, 0⟩, 1/2⟩
        ⟨[], Option.none, some 50⟩
        ⟨⟨0, 10, 100, 5⟩, 10, true⟩).1 =
      beginPage (fun d => d) docInit 612 792 := by
  have h := C6_fitRow_reject (beginPage (fun d => d) docInit 612 792)
    ⟨[100], defaultCellStyle, ⟨0, 0, 0⟩, 1/2⟩
    ⟨[], Option.none, some 50⟩
    ⟨⟨0, 10, 100, 5⟩, 10, true⟩
    { width := 612, height := 792, contentOps := [], usedFonts := [],
      usedTTFonts := [], usedImages := [], editing := Option.none }
    rfl
    (by norm_num [measureRowHeight])
  exact ⟨h.2.1, h.2.2⟩

/-- C10: `fit_row`'s row generation leaves the cursor untouched whenever
it returns `BoxFull` or `BoxEmpty`; on the `Stop` path it decrements
`current_y` by exactly the computed row height, clears the first-row
flag, and keeps the rect. -/
theorem C10_rowOps_cursor_frame (table : Table) (row : Row) (cursor : TableCursor)
    (ttFonts : List TrueTypeFont) :
    ((generateRowOps table row cursor ttFonts).2.1 = FitResult.boxFull ∨
      (generateRowOps table row cursor ttFonts).2.1 = FitResult.boxEmpty →
      (generateRowOps table row cursor ttFonts).2.2.2 = cursor) ∧
    ((generateRowOps table row cursor ttFonts).2.1 = FitResult.stop →
      (generateRowOps table row cursor ttFonts).2.2.2.currentY =
        cursor.currentY -
          measureRowHeight row table.columns table.defaultStyle ttFonts ∧
      (generateRowOps table row cursor ttFonts).2.2.2.firstRow = false ∧
      (generateRowOps table row cursor ttFonts).2.2.2.rect = cursor.rect) := by
  by_cases h : cursor.currentY -
      measureRowHeight row table.columns table.defaultStyle ttFonts <
      cursor.rect.y - cursor.rect.height
  · rw [generateRowOps_reject h]
    constructor
    · intro _
      rfl
    · intro hst
      by_cases hf : cursor.firstRow <;> simp [hf] at hst
  · unfold generateRowOps
    rw [if_neg h]
    exact ⟨fun hc => by rcases hc with hc | hc <;> simp at hc,
      fun _ => ⟨rfl, rfl, rfl⟩⟩

/-- C10 witness: a row that fits decrements the cursor by its fixed
height and clears the first-row flag. -/
theorem C10_rowOps_cursor_frame_witness :
    (generateRowOps ⟨[100], defaultCellStyle, ⟨0, 0, 0⟩, 1/2⟩
        ⟨[], Option.none, some 50⟩ ⟨⟨0, 100, 100, 100⟩, 100, true⟩ []).2.2.2.currentY =
      100 - measureRowHeight ⟨[], Option.none, some 50⟩ [100] defaultCellStyle [] ∧
    (generateRowOps ⟨[100], defaultCellStyle, ⟨0, 0, 0⟩, 1/2⟩
        ⟨[], Option.none, some 50⟩ ⟨⟨0, 100, 100, 100⟩, 100, true⟩ []).2.2.2.firstRow =
      false := by
  have h := (C10_rowOps_cursor_frame ⟨[100], defaultCellStyle, ⟨0, 0, 0⟩, 1/2⟩
    ⟨[], Option.none, some 50⟩ ⟨⟨0, 100, 100, 100⟩, 100, true⟩ []).2
    (by
      unfold generateRowOps
      rw [if_neg (by norm_num [measureRowHeight])])
  exact ⟨h.1, h.2.1⟩

/-! ## Claim C7: `fit_textflow` BoxEmpty path -/

theorem layoutLoopAux_boxEmpty (words : List Word) (rect : Rect)
    (ttFonts : List TrueTypeFont) (fby : ℚ) :
    ∀ (fuel cursor : ℕ) (output : List Char) (currentY : ℚ)
      (isFirstLine anyPlaced : Bool) (af : Option FontRef) (asz : Option ℚ)
      (used : UsedFonts),
      (layoutLoopAux words rect ttFonts fby fuel cursor output currentY
          isFirstLine anyPlaced af asz used).exit = some FitResult.boxEmpty →
        (layoutLoopAux words rect ttFonts fby fuel cursor output currentY
          isFirstLine anyPlaced af asz used).output = [] ∧
        (layoutLoopAux words rect ttFonts fby fuel cursor output currentY
          isFirstLine anyPlaced af asz used).used = UsedFonts.empty := by
  intro fuel
  induction fuel with
  | zero =>
    intro cursor output currentY ifl ap af asz used h
    simp [layoutLoopAux] at h
  | succ fuel ih =>
    intro cursor output currentY ifl ap af asz used
    unfold layoutLoopAux
    cases hw : words.get? cursor with
    | none =>
      intro h
      simp at h
    | some w =>
      dsimp only
      by_cases hv : ¬ifl = true ∧
          currentY - lineHeightFor w.style ttFonts < rect.y - rect.height
      · rw [if_pos hv]
        intro h
        simp at h
      · rw [if_neg hv]
        cases hc : collectLine words rect.width ttFonts ap cursor with
        | none => exact fun _ => ⟨rfl, rfl⟩
        | some lineEnd =>
          dsimp only
          by_cases hle : lineEnd = cursor
          · rw [if_pos hle]
            intro h
            simp at h
          · rw [if_neg hle]
            intro h
            exact ih _ _ _ _ _ _ _ _ h

theorem generateContentOps_boxEmpty (flow : TextFlow) (rect : Rect)
    (ttFonts : List TrueTypeFont)
    (h : (generateContentOps flow rect ttFonts).2.1 = FitResult.boxEmpty) :
    (generateContentOps flow rect ttFonts).1 = [] ∧
    (generateContentOps flow rect ttFonts).2.2.1 = UsedFonts.empty := by
  unfold generateContentOps at h ⊢
  cases hw : (flowWords flow rect ttFonts).get? flow.cursor with
  | none =>
    rw [hw] at h
    exact absurd h (by simp)
  | some firstWord =>
    rw [hw] at h
    dsimp only at h ⊢
    by_cases hgate : lineHeightFor firstWord.style ttFonts > rect.height
    · rw [if_pos hgate]
      exact ⟨rfl, rfl⟩
    · rw [if_neg hgate] at h ⊢
      cases hexit : (layoutRun flow rect ttFonts firstWord).exit with
      | some fr =>
        rw [hexit] at h
        dsimp only at h
        subst h
        unfold layoutRun at hexit ⊢
        exact layoutLoopAux_boxEmpty (flowWords flow rect ttFonts) rect ttFonts
          (rect.y - firstWord.style.fontSize)
          ((flowWords flow rect ttFonts).length - flow.cursor) flow.cursor
          (chars "BT\n") (rect.y - firstWord.style.fontSize)
          true false Option.none Option.none UsedFonts.empty hexit
      | none =>
        rw [hexit] at h
        dsimp only at h
        split at h <;> simp at h

/-- C7: `fit_textflow` on a rect whose height is strictly less than the
line height of the first pending word returns `BoxEmpty`; and whenever
`fit_textflow` returns `BoxEmpty`, zero bytes are appended to the page
content stream and the document state is unchanged. -/
theorem C7_fitTextflow_boxEmpty (s : DocState) (flow : TextFlow) (rect : Rect)
    (page : PageBuilder) (hp : s.currentPage = some page) :
    (∀ w, (flowWords flow rect s.truetypeFonts).get? flow.cursor = some w →
      rect.height < lineHeightFor w.style s.truetypeFonts →
      (fitTextflow s flow rect).2.2 = FitResult.boxEmpty) ∧
    ((fitTextflow s flow rect).2.2 = FitResult.boxEmpty →
      (generateContentOps flow rect s.truetypeFonts).1 = [] ∧
      (fitTextflow s flow rect).1 = s) := by
  constructor
  · intro w hw hlt
    unfold fitTextflow
    rw [hp]
    dsimp only
    unfold generateContentOps
    rw [hw]
    dsimp only
    rw [if_pos (show lineHeightFor w.style s.truetypeFonts > rect.height from hlt)]
  · intro h
    unfold fitTextflow at h ⊢
    rw [hp] at h ⊢
    dsimp only at h ⊢
    obtain ⟨hops, hused⟩ := generateContentOps_boxEmpty flow rect s.truetypeFonts h
    refine ⟨hops, ?_⟩
    rw [hops, hused]
    show ({ s with currentPage := some ({ page with
      contentOps := page.contentOps ++ [],
      usedFonts := mergeFonts page.usedFonts UsedFonts.empty.builtin,
      usedTTFonts := mergeNats page.usedTTFonts UsedFonts.empty.truetype }) }) = s
    rw [show UsedFonts.empty.builtin = [] from rfl,
      show UsedFonts.empty.truetype = [] from rfl,
      mergeFonts_nil, mergeNats_nil, List.append_nil]
    rw [← hp]

/-- C7 witness: a 12pt Helvetica flow (line height 14.4) against a
5pt-tall rect returns `BoxEmpty` and leaves the document unchanged. -/
theorem C7_fitTextflow_boxEmpty_witness :
    (fitTextflow (beginPage (fun d => d) docInit 612 792)
        ⟨[(chars "a", ⟨FontRef.builtin BuiltinFont.helvetica, 12⟩)], 0,
          WordBreak.normal⟩
        ⟨0, 100, 100, 5⟩).2.2 = FitResult.boxEmpty ∧
    (fitTextflow (beginPage (fun d => d) docInit 612 792)
        ⟨[(chars "a", ⟨FontRef.builtin BuiltinFont.helvetica, 12⟩)], 0,
          WordBreak.normal⟩
        ⟨0, 100, 100, 5⟩).1 = beginPage (fun d => d) docInit 612 792 := by
  have h := C7_fitTextflow_boxEmpty (beginPage (fun d => d) docInit 612 792)
    ⟨[(chars "a", ⟨FontRef.builtin BuiltinFont.helvetica, 12⟩)], 0,
      WordBreak.normal⟩
    ⟨0, 100, 100, 5⟩
    { width := 612, height := 792, contentOps := [], usedFonts := [],
      usedTTFonts := [], usedImages := [], editing := Option.none }
    rfl
  have hbe := h.1 ⟨chars "a", ⟨FontRef.builtin BuiltinFont.helvetica, 12⟩, false⟩
    rfl (by norm_num [lineHeightFor, lineHeightBuiltin])
  exact ⟨hbe, (h.2 hbe).2⟩

/-! ## Claim C9: empty page -/

/-- C9: ending a page to which no content operations were appended (and
with compression off, the default) writes a content stream object with
an empty dictionary — serialized with `/Length 0` — followed by a page
dictionary whose Resources hold an empty `/Font` dictionary and no
XObject entry. -/
theorem C9_emptyPage_stream (flate : List Char → List Char) (s : DocState)
    (page : PageBuilder) (hp : s.currentPage = some page)
    (hedit : page.editing = Option.none) (hops : page.contentOps = [])
    (hfonts : page.usedFonts = []) (htt : page.usedTTFonts = [])
    (himgs : page.usedImages = []) (hc : s.compress = false) :
    (endPage flate s).writer.log = s.writer.log ++
      [(⟨s.nextObjNum, 0⟩, PdfObject.stream PdfDictList.nil []),
       (⟨s.nextObjNum + 1, 0⟩,
        pageDictFor page.width page.height
          (PdfObject.reference ⟨s.nextObjNum, 0⟩) (resourcesFor [] []))] ∧
    serializePdfObject (PdfObject.stream PdfDictList.nil []) =
      chars "<< /Length 0 >>
stream

endstream" ∧
    serializePdfObject (resourcesFor [] []) = chars "<< /Font << >> >>" := by
  refine ⟨?_, rfl, rfl⟩
  unfold endPage
  rw [hp]
  dsimp only
  rw [hedit]
  dsimp only
  unfold endPageNew
  rw [hfonts, himgs, hops]
  simp only [List.foldl, makeStream, hc, Bool.false_eq_true, if_false,
    fontEntriesFor, xobjectEntriesFor, List.map_nil, List.filterMap_nil,
    writeObject, writeBytes, List.append_assoc]
  rfl

/-- C9 witness: an empty default-letter page on a fresh document. -/
theorem C9_emptyPage_stream_witness :
    (endPage (fun d => d) (beginPage (fun d => d) docInit 612 792)).writer.log =
      (beginPage (fun d => d) docInit 612 792).writer.log ++
      [(⟨3, 0⟩, PdfObject.stream PdfDictList.nil []),
       (⟨3 + 1, 0⟩,
        pageDictFor 612 792 (PdfObject.reference ⟨3, 0⟩) (resourcesFor [] []))] ∧
    serializePdfObject (PdfObject.stream PdfDictList.nil []) =
      chars "<< /Length 0 >>
stream

endstream" ∧
    serializePdfObject (resourcesFor [] []) = chars "<< /Font << >> >>" :=
  C9_emptyPage_stream (fun d => d) (beginPage (fun d => d) docInit 612 792)
    { width := 612, height := 792, contentOps := [], usedFonts := [],
      usedTTFonts := [], usedImages := [], editing := Option.none }
    rfl rfl rfl rfl rfl rfl rfl

/-! ## Claim C2: `open_page` (modelled from the spec) -/

/-- C2: `open_page(n)` with a 1-based in-range index re-opens page `n`
with the stored page's dimensions, writing nothing; index 0 or an index
past the last page returns an error and leaves the document unchanged;
ending a re-opened page writes the appended bytes as an additional
content stream and supersedes the page dictionary, whose `/Contents`
becomes the array of the original content reference(s) followed by the
overlay reference. -/
theorem C2_openPage (flate : List Char → List Char) (s : DocState) (n : ℕ) :
    (s.currentPage = Option.none → ∀ record, 1 ≤ n →
      s.pageRecords.get? (n - 1) = some record →
      ∃ s', openPage flate s n = Except.ok s' ∧
        s'.currentPage = some (⟨record.width, record.height, [], [], [], [],
          some (n - 1)⟩ : PageBuilder) ∧
        s'.pageRecords = s.pageRecords ∧ s'.writer = s.writer) ∧
    (n = 0 ∨ s.pageRecords.length < n →
      openPage flate s n = Except.error (chars "page number out of range")) ∧
    (∀ page record idx, s.currentPage = some page → page.editing = some idx →
      s.pageRecords.get? idx = some record →
      page.usedFonts = [] → page.usedImages = [] →
      (endPage flate s).writer.log = s.writer.log ++
        [(⟨s.nextObjNum, 0⟩, makeStream flate s.compress [] page.contentOps),
         (record.pageId, pageDictFor record.width record.height
           (PdfObject.array (PdfObjList.ofList
             ((record.contentIds ++ [(⟨s.nextObjNum, 0⟩ : ObjId)]).map
               PdfObject.reference)))
           (resourcesFor (fontEntriesFor s record.usedFonts)
             (xobjectEntriesFor s record.usedImages)))] ∧
      (endPage flate s).pageRecords = s.pageRecords.set idx
        ({ record with contentIds :=
            record.contentIds ++ [(⟨s.nextObjNum, 0⟩ : ObjId)] })) := by
  refine ⟨?_, ?_, ?_⟩
  · intro hcur record h1 hrec
    obtain ⟨hlt, -⟩ := List.get?_eq_some.mp hrec
    unfold openPage
    rw [if_neg (by omega)]
    dsimp only
    rw [hcur]
    simp only [Option.isSome_none, Bool.false_eq_true, if_false]
    rw [hrec]
    dsimp only
    exact ⟨_, rfl, rfl, rfl, rfl⟩
  · intro h
    unfold openPage
    rw [if_pos h]
  · intro page record idx hpg hedit hrec hf hi
    unfold endPage
    rw [hpg]
    dsimp only
    rw [hedit]
    dsimp only
    unfold endPageEdit
    dsimp only
    rw [hrec]
    dsimp only
    rw [hf, hi]
    simp only [List.foldl]
    constructor
    · simp only [writeObject, writeBytes, List.append_assoc]
      rfl
    · rfl

/-- C2 witness: a document holding one completed 612x792 page whose
content stream is object 3 and page dictionary object 4.  `open_page 1`
succeeds with the stored dimensions, `open_page 0` and `open_page 2`
error, and ending a re-opened overlay builder appends its stream id to
the page record's content list. -/
theorem C2_openPage_witness :
    (∃ s', openPage (fun d => d)
        ⟨headerState, [], [⟨4, 0⟩], Option.none, 5, [], [], false, [], [], [], 1,
          [⟨612, 792, ⟨4, 0⟩, [⟨3, 0⟩], [], []⟩]⟩ 1 = Except.ok s' ∧
      s'.currentPage = some (⟨612, 792, [], [], [], [], some 0⟩ : PageBuilder)) ∧
    openPage (fun d => d)
        ⟨headerState, [], [⟨4, 0⟩], Option.none, 5, [], [], false, [], [], [], 1,
          [⟨612, 792, ⟨4, 0⟩, [⟨3, 0⟩], [], []⟩]⟩ 0 =
      Except.error (chars "page number out of range") ∧
    openPage (fun d => d)
        ⟨headerState, [], [⟨4, 0⟩], Option.none, 5, [], [], false, [], [], [], 1,
          [⟨612, 792, ⟨4, 0⟩, [⟨3, 0⟩], [], []⟩]⟩ 2 =
      Except.error (chars "page number out of range") ∧
    (endPage (fun d => d)
        ⟨headerState, [], [⟨4, 0⟩],
          some ⟨612, 792, chars "q Q\n", [], [], [], some 0⟩, 5, [], [], false,
          [], [], [], 1, [⟨612, 792, ⟨4, 0⟩, [⟨3, 0⟩], [], []⟩]⟩).pageRecords =
      [(⟨612, 792, ⟨4, 0⟩, [⟨3, 0⟩, ⟨5, 0⟩], [], []⟩ : PageRecord)] := by
  refine ⟨?_, ?_, ?_, ?_⟩
  · obtain ⟨s', hok, hcp, -, -⟩ :=
      (C2_openPage (fun d => d)
        ⟨headerState, [], [⟨4, 0⟩], Option.none, 5, [], [], false, [], [], [], 1,
          [⟨612, 792, ⟨4, 0⟩, [⟨3, 0⟩], [], []⟩]⟩ 1).1 rfl
        ⟨612, 792, ⟨4, 0⟩, [⟨3, 0⟩], [], []⟩ (by decide) rfl
    exact ⟨s', hok, hcp⟩
  · exact (C2_openPage (fun d => d)
      ⟨headerState, [], [⟨4, 0⟩], Option.none, 5, [], [], false, [], [], [], 1,
        [⟨612, 792, ⟨4, 0⟩, [⟨3, 0⟩], [], []⟩]⟩ 0).2.1 (Or.inl rfl)
  · exact (C2_openPage (fun d => d)
      ⟨headerState, [], [⟨4, 0⟩], Option.none, 5, [], [], false, [], [], [], 1,
        [⟨612, 792, ⟨4, 0⟩, [⟨3, 0⟩], [], []⟩]⟩ 2).2.1 (Or.inr (by decide))
  · exact ((C2_openPage (fun d => d)
      ⟨headerState, [], [⟨4, 0⟩],
        some ⟨612, 792, chars "q Q\n", [], [], [], some 0⟩, 5, [], [], false,
        [], [], [], 1, [⟨612, 792, ⟨4, 0⟩, [⟨3, 0⟩], [], []⟩]⟩ 1).2.2
      ⟨612, 792, chars "q Q\n", [], [], [], some 0⟩
      ⟨612, 792, ⟨4, 0⟩, [⟨3, 0⟩], [], []⟩ 0 rfl rfl rfl rfl rfl).2

/-! ## Claim C8: image bookkeeping lemmas -/

theorem find?_append_some {α : Type} (p : α → Bool) (l t : List α) (a : α)
    (h : l.find? p = some a) : (l ++ t).find? p = some a := by
  induction l with
  | nil => simp [List.find?] at h
  | cons x xs ih =>
    rw [List.cons_append]
    cases hx : p x with
    | true =>
      rw [List.find?_cons_of_pos _ hx] at h ⊢
      exact h
    | false =>
      rw [List.find?_cons_of_neg _ (by simp [hx])] at h ⊢
      exact ih h

theorem lookupImageObj_append {m t : List (ℕ × ImageObjIds)} {i : ℕ}
    {p : ImageObjIds} (h : lookupImageObj m i = some p) :
    lookupImageObj (m ++ t) i = some p := by
  unfold lookupImageObj at h ⊢
  cases hf : m.find? (fun e => e.1 == i) with
  | none =>
    rw [hf] at h
    simp at h
  | some e =>
    rw [hf] at h
    rw [find?_append_some _ _ _ _ hf]
    exact h

theorem lookupImageObj_isSome_append {m t : List (ℕ × ImageObjIds)} {i : ℕ}
    (h : (lookupImageObj m i).isSome) : (lookupImageObj (m ++ t) i).isSome := by
  cases hp : lookupImageObj m i with
  | none =>
    rw [hp] at h
    simp at h
  | some p =>
    rw [lookupImageObj_append hp]
    rfl

theorem lookupImageObj_mem {m : List (ℕ × ImageObjIds)} {i : ℕ}
    {p : ImageObjIds} (h : lookupImageObj m i = some p) : (i, p) ∈ m := by
  unfold lookupImageObj at h
  cases hf : m.find? (fun e => e.1 == i) with
  | none =>
    rw [hf] at h
    simp at h
  | some e =>
    rw [hf] at h
    injection h with h
    have hm := List.mem_of_find?_eq_some hf
    have he : e.1 = i := by
      have hbeq := List.find?_some hf
      simpa using hbeq
    have hep : (i, p) = e := by
      cases e with
      | mk a b =>
        cases h
        cases he
        rfl
    rw [hep]
    exact hm

theorem lookupImageObj_none_not_key {m : List (ℕ × ImageObjIds)} {i : ℕ}
    (h : lookupImageObj m i = Option.none) : ∀ e ∈ m, e.1 ≠ i := by
  unfold lookupImageObj at h
  cases hf : m.find? (fun e => e.1 == i) with
  | some e =>
    rw [hf] at h
    simp at h
  | none =>
    intro e he
    have := List.find?_eq_none.mp hf e he
    simpa using this

theorem keys_nodup_unique {m : List (ℕ × ImageObjIds)}
    (hnd : (m.map Prod.fst).Nodup) {i : ℕ} {p q : ImageObjIds}
    (hp : (i, p) ∈ m) (hq : (i, q) ∈ m) : p = q := by
  induction m with
  | nil => simp at hp
  | cons e rest ih =>
    rw [List.map_cons, List.nodup_cons] at hnd
    rcases List.mem_cons.mp hp with hp1 | hp1 <;>
      rcases List.mem_cons.mp hq with hq1 | hq1
    · exact congrArg Prod.snd (hp1.trans hq1.symm)
    · exfalso
      apply hnd.1
      have h3 : i ∈ rest.map Prod.fst := List.mem_map.mpr ⟨(i, q), hq1, rfl⟩
      have h4 : i = e.1 := congrArg Prod.fst hp1
      rw [← h4]
      exact h3
    · exfalso
      apply hnd.1
      have h3 : i ∈ rest.map Prod.fst := List.mem_map.mpr ⟨(i, p), hp1, rfl⟩
      have h4 : i = e.1 := congrArg Prod.fst hq1
      rw [← h4]
      exact h3
    · exact ih hnd.2 hp1 hq1

theorem entry_nodup {m : List (ℕ × ImageObjIds)}
    (h : ((m.map (fun p => imageEntryNums p.2)).flatten).Nodup) :
    ∀ p ∈ m, (imageEntryNums p.2).Nodup := by
  induction m with
  | nil =>
    intro p hp
    simp at hp
  | cons e rest ih =>
    rw [List.map_cons, List.flatten_cons, List.nodup_append] at h
    intro p hp
    rcases List.mem_cons.mp hp with h1 | h1
    · rw [h1]
      exact h.1
    · exact ih h.2.1 p h1

theorem entry_disjoint {m : List (ℕ × ImageObjIds)}
    (h : ((m.map (fun p => imageEntryNums p.2)).flatten).Nodup)
    (hk : (m.map Prod.fst).Nodup) :
    ∀ p ∈ m, ∀ q ∈ m, p.1 ≠ q.1 →
      ∀ n ∈ imageEntryNums p.2, n ∉ imageEntryNums q.2 := by
  induction m with
  | nil =>
    intro p hp
    simp at hp
  | cons e rest ih =>
    rw [List.map_cons, List.flatten_cons, List.nodup_append] at h
    rw [List.map_cons, List.nodup_cons] at hk
    intro p hp q hq hne n hn
    rcases List.mem_cons.mp hp with h1 | h1 <;>
      rcases List.mem_cons.mp hq with h2 | h2
    · rw [h1, h2] at hne
      exact absurd rfl hne
    · intro hcontra
      have hqm : n ∈ (rest.map (fun p => imageEntryNums p.2)).flatten :=
        List.mem_flatten.mpr
          ⟨imageEntryNums q.2, List.mem_map_of_mem _ h2, hcontra⟩
      exact h.2.2 (h1 ▸ hn) hqm
    · intro hcontra
      have hpm : n ∈ (rest.map (fun p => imageEntryNums p.2)).flatten :=
        List.mem_flatten.mpr ⟨imageEntryNums p.2, List.mem_map_of_mem _ h1, hn⟩
      exact h.2.2 (h2 ▸ hcontra) hpm
    · exact ih h.2.1 hk.2 p h1 q h2 hne n hn

theorem mem_imageNums_of_entry {m : List (ℕ × ImageObjIds)}
    {p : ℕ × ImageObjIds} (hp : p ∈ m) {n : ℕ}
    (hn : n ∈ imageEntryNums p.2) :
    n ∈ (m.map (fun p => imageEntryNums p.2)).flatten :=
  List.mem_flatten.mpr ⟨imageEntryNums p.2, List.mem_map_of_mem _ hp, hn⟩

theorem mem_insertSortedNat {x : ℕ} {l : List ℕ} {a : ℕ} :
    a ∈ insertSortedNat x l ↔ a = x ∨ a ∈ l := by
  induction l with
  | nil => simp [insertSortedNat]
  | cons y t ih =>
    unfold insertSortedNat
    by_cases h1 : x < y
    · simp [if_pos h1, List.mem_cons]
    · by_cases h2 : x = y
      · subst h2
        simp [if_neg h1, List.mem_cons]
      · simp [if_neg h1, if_neg h2, List.mem_cons, ih]
        tauto

theorem ImageInv_setCompression (s : DocState) (b : Bool) (h : ImageInv s) :
    ImageInv { s with compress := b } := h

theorem ImageInv_loadImage (s : DocState) (img : ImageData) (h : ImageInv s) :
    ImageInv (loadImageBytes s img).1 := h

theorem ImageInv_placeText (s : DocState) (text : List Char) (x y : ℚ)
    (h : ImageInv s) : ImageInv (placeText s text x y) := by
  obtain ⟨h1, h2, h3, h4, h5, h6, h7, h8⟩ := h
  unfold placeText
  cases hc : s.currentPage with
  | none => exact ⟨h1, h2, h3, h4, h5, h6, h7, h8⟩
  | some page =>
    dsimp only
    refine ⟨h1, h2, h3, h4, h5, h6, h7, ?_⟩
    intro p hp
    dsimp only at hp
    injection hp with hp
    rw [← hp]
    exact h8 page hc

theorem ensureFontWritten_inv (s : DocState) (f : BuiltinFont)
    (h : ImageInv s) :
    ImageInv (ensureFontWritten s f).1 ∧
    (ensureFontWritten s f).1.imageObjIds = s.imageObjIds ∧
    (ensureFontWritten s f).1.writtenImages = s.writtenImages ∧
    (ensureFontWritten s f).1.currentPage = s.currentPage := by
  obtain ⟨h1, h2, h3, h4, h5, h6, h7, h8⟩ := h
  unfold ensureFontWritten
  cases hf : lookupFontObj s.fontObjIds f with
  | some id => exact ⟨⟨h1, h2, h3, h4, h5, h6, h7, h8⟩, rfl, rfl, rfl⟩
  | none =>
    dsimp only
    refine ⟨⟨h1, ?_, h3, h4, ?_, ?_, by dsimp only; omega, h8⟩, rfl, rfl, rfl⟩
    · intro n hn
      dsimp only
      have := h2 n hn
      omega
    · intro e he
      dsimp only at he ⊢
      rw [writeObject_log] at he
      rcases List.mem_append.mp he with he | he
      · have := h5 e he
        omega
      · have he' := List.mem_singleton.mp he
        rw [he']
        dsimp only
        omega
    · intro p hp
      dsimp only
      rw [writeObject_log, List.countP_append]
      have hx : p.2.xobject.num ∈ imageNums s :=
        mem_imageNums_of_entry hp (List.mem_cons_self _ _)
      have hlt := (h2 _ hx).2
      have hne : (s.nextObjNum == p.2.xobject.num) = false := by
        simp only [beq_eq_false_iff_ne, ne_eq]
        omega
      have h0 : List.countP (fun e => e.1.num == p.2.xobject.num)
          [((⟨s.nextObjNum, 0⟩ : ObjId),
            PdfObject.dictionary (PdfDictList.ofList
              [(chars "Type", PdfObject.name (chars "Font")),
               (chars "Subtype", PdfObject.name (chars "Type1")),
               (chars "BaseFont",
                PdfObject.name (chars f.pdfBaseName))]))] = 0 := by
        simp [List.countP_cons, hne]
      rw [h0]
      rw [Nat.add_zero]
      exact h6 p hp

theorem fontFold_inv (fonts : List BuiltinFont) :
    ∀ (s : DocState), ImageInv s →
      ImageInv (fonts.foldl (fun acc f => (ensureFontWritten acc f).1) s) ∧
      (fonts.foldl (fun acc f =>
        (ensureFontWritten acc f).1) s).imageObjIds = s.imageObjIds ∧
      (fonts.foldl (fun acc f =>
        (ensureFontWritten acc f).1) s).writtenImages = s.writtenImages ∧
      (fonts.foldl (fun acc f =>
        (ensureFontWritten acc f).1) s).currentPage = s.currentPage := by
  induction fonts with
  | nil =>
    intro s h
    exact ⟨h, rfl, rfl, rfl⟩
  | cons f rest ih =>
    intro s h
    rw [List.foldl_cons]
    obtain ⟨hi, he1, he2, he3⟩ := ensureFontWritten_inv s f h
    obtain ⟨hi2, hf1, hf2, hf3⟩ := ih _ hi
    exact ⟨hi2, hf1.trans he1, hf2.trans he2, hf3.trans he3⟩

theorem ImageInv_markWritten (s : DocState) (idx : ℕ) (objIds : ImageObjIds)
    (ext : List (ObjId × PdfObject)) (w' : WriterState)
    (hw : idx ∉ s.writtenImages)
    (hlook : lookupImageObj s.imageObjIds idx = some objIds)
    (hlog : w'.log = s.writer.log ++ ext)
    (hmem : ∀ e ∈ ext, e.1.num ∈ imageEntryNums objIds)
    (hcount : ext.countP (fun e => e.1.num == objIds.xobject.num) = 1)
    (h : ImageInv s) :
    ImageInv { s with writer := w',
                      writtenImages := insertSortedNat idx s.writtenImages } := by
  obtain ⟨h1, h2, h3, h4, h5, h6, h7, h8⟩ := h
  have he0 : (idx, objIds) ∈ s.imageObjIds := lookupImageObj_mem hlook
  refine ⟨h1, h2, h3, ?_, ?_, ?_, h7, ?_⟩
  · intro i hi
    dsimp only at hi
    rcases mem_insertSortedNat.mp hi with hi | hi
    · rw [hi]
      simp [hlook]
    · exact h4 i hi
  · intro e he
    dsimp only at he ⊢
    rw [hlog] at he
    rcases List.mem_append.mp he with he | he
    · exact h5 e he
    · have hn : e.1.num ∈ imageNums s :=
        mem_imageNums_of_entry he0 (hmem e he)
      exact (h2 _ hn).2
  · intro p hp
    dsimp only at hp ⊢
    rw [hlog, List.countP_append]
    by_cases hpidx : p.1 = idx
    · have hpm : (idx, p.2) ∈ s.imageObjIds := by
        rw [← hpidx]
        exact hp
      have hpq : p.2 = objIds := keys_nodup_unique h3 hpm he0
      have hz : List.countP (fun e => e.1.num == p.2.xobject.num)
          s.writer.log = 0 := by
        have := h6 p hp
        rw [hpidx, if_neg hw] at this
        exact this
      have ho : List.countP (fun e => e.1.num == p.2.xobject.num) ext = 1 := by
        rw [hpq]
        exact hcount
      rw [hz, ho]
      have : p.1 ∈ insertSortedNat idx s.writtenImages :=
        mem_insertSortedNat.mpr (Or.inl hpidx)
      rw [if_pos this]
    · have hdisj := entry_disjoint h1 h3 p hp (idx, objIds) he0 hpidx
        p.2.xobject.num (List.mem_cons_self _ _)
      have hz : List.countP (fun e => e.1.num == p.2.xobject.num) ext = 0 := by
        refine List.countP_eq_zero.mpr ?_
        intro e he
        have := hmem e he
        simp only [beq_eq_false_iff_ne, ne_eq, Bool.not_eq_true, beq_iff_eq]
        intro hcontra
        exact hdisj (hcontra ▸ this)
      rw [hz, Nat.add_zero]
      by_cases hmm : p.1 ∈ s.writtenImages
      · rw [if_pos (mem_insertSortedNat.mpr (Or.inr hmm))]
        have h6' := h6 p hp
        rw [if_pos hmm] at h6'
        exact h6'
      · have hnot : p.1 ∉ insertSortedNat idx s.writtenImages := by
          intro hcontra
          rcases mem_insertSortedNat.mp hcontra with hc | hc
          · exact hpidx hc
          · exact hmm hc
        rw [if_neg hnot]
        have h6' := h6 p hp
        rw [if_neg hmm] at h6'
        exact h6'
  · intro pg hpg
    dsimp only at hpg
    exact h8 pg hpg

theorem writeImageXObject_inv (flate : List Char → List Char) (s : DocState)
    (idx : ℕ) (h : ImageInv s) :
    ImageInv (writeImageXObject flate s idx) ∧
    (writeImageXObject flate s idx).imageObjIds = s.imageObjIds ∧
    (writeImageXObject flate s idx).currentPage = s.currentPage := by
  unfold writeImageXObject
  by_cases hw : idx ∈ s.writtenImages
  · rw [if_pos hw]
    exact ⟨h, rfl, rfl⟩
  · rw [if_neg hw]
    cases himg : s.images.get? idx with
    | none => exact ⟨h, rfl, rfl⟩
    | some img =>
      cases hlook : lookupImageObj s.imageObjIds idx with
      | none => exact ⟨h, rfl, rfl⟩
      | some objIds =>
        dsimp only
        have hnd : (imageEntryNums objIds).Nodup :=
          entry_nodup h.1 (idx, objIds) (lookupImageObj_mem hlook)
        cases hsm : objIds.smask with
        | some smId =>
          cases hsd : img.smaskData with
          | some smData =>
            dsimp only
            refine ⟨?_, rfl, rfl⟩
            refine ImageInv_markWritten s idx objIds
              [(smId, makeStream flate s.compress
                  [(chars "Type", PdfObject.name (chars "XObject")),
                   (chars "Subtype", PdfObject.name (chars "Image")),
                   (chars "Width", PdfObject.integer (img.width : ℤ)),
                   (chars "Height", PdfObject.integer (img.height : ℤ)),
                   (chars "ColorSpace", PdfObject.name (chars "DeviceGray")),
                   (chars "BitsPerComponent", PdfObject.integer 8)] smData),
               (objIds.xobject,
                match img.format with
                | ImageFormat.jpeg =>
                  PdfObject.stream (PdfDictList.ofList
                    (imageDictEntries img (some smId) ++
                      [(chars "Filter", PdfObject.name (chars "DCTDecode"))]))
                    img.data
                | ImageFormat.png =>
                  makeStream flate s.compress (imageDictEntries img (some smId))
                    img.data)]
              _ hw hlook ?hlog ?hmem ?hcount h
            case hlog =>
              dsimp only
              rw [writeObject_log, writeObject_log, List.append_assoc]
              rfl
            case hmem =>
              intro e he
              rcases List.mem_cons.mp he with he | he
              · rw [he]
                simp [imageEntryNums, hsm]
              · rw [List.mem_singleton.mp he]
                simp [imageEntryNums]
            case hcount =>
              have hne : (smId.num == objIds.xobject.num) = false := by
                rw [imageEntryNums, hsm] at hnd
                simp only [List.nodup_cons, List.mem_cons] at hnd
                simp only [beq_eq_false_iff_ne, ne_eq]
                intro hcontra
                exact hnd.1 (Or.inl hcontra.symm)
              simp [List.countP_cons, hne]
          | none =>
            dsimp only
            refine ⟨?_, rfl, rfl⟩
            refine ImageInv_markWritten s idx objIds
              [(objIds.xobject, _)] _ hw hlook (writeObject_log _ _ _) ?_ ?_ h
            · intro e he
              rcases List.mem_cons.mp he with he | he
              · rw [he]
                simp [imageEntryNums]
              · simp at he
            · simp [List.countP_cons]
        | none =>
          dsimp only
          refine ⟨?_, rfl, rfl⟩
          refine ImageInv_markWritten s idx objIds
            [(objIds.xobject, _)] _ hw hlook (writeObject_log _ _ _) ?_ ?_ h
          · intro e he
            rcases List.mem_cons.mp he with he | he
            · rw [he]
              simp [imageEntryNums]
            · simp at he
          · simp [List.countP_cons]

theorem imageFold_inv (flate : List Char → List Char) (imgs : List ℕ) :
    ∀ (s : DocState), ImageInv s →
      ImageInv (imgs.foldl (fun acc i => writeImageXObject flate acc i) s) ∧
      (imgs.foldl (fun acc i =>
        writeImageXObject flate acc i) s).imageObjIds = s.imageObjIds ∧
      (imgs.foldl (fun acc i =>
        writeImageXObject flate acc i) s).currentPage = s.currentPage := by
  induction imgs with
  | nil =>
    intro s h
    exact ⟨h, rfl, rfl⟩
  | cons i rest ih =>
    intro s h
    rw [List.foldl_cons]
    obtain ⟨hi, he1, he2⟩ := writeImageXObject_inv flate s i h
    obtain ⟨hi2, hg1, hg2⟩ := ih _ hi
    exact ⟨hi2, hg1.trans he1, hg2.trans he2⟩

theorem ImageInv_allocEntry (s : DocState) (idx : ℕ) (entry : ImageObjIds)
    (k nin : ℕ) (hk : 1 ≤ k)
    (hl : lookupImageObj s.imageObjIds idx = Option.none)
    (hnd : (imageEntryNums entry).Nodup)
    (hfresh : ∀ n ∈ imageEntryNums entry,
      s.nextObjNum ≤ n ∧ n < s.nextObjNum + k)
    (h : ImageInv s) :
    ImageInv { s with nextObjNum := s.nextObjNum + k,
                      nextImageNum := nin,
                      imageObjIds := s.imageObjIds ++ [(idx, entry)] } := by
  obtain ⟨h1, h2, h3, h4, h5, h6, h7, h8⟩ := h
  have hin : imageNums { s with nextObjNum := s.nextObjNum + k, nextImageNum := nin, imageObjIds := s.imageObjIds ++ [(idx, entry)] } = imageNums s ++ imageEntryNums entry := by
    unfold imageNums
    dsimp only
    rw [List.map_append, List.flatten_append]
    simp
  refine ⟨?_, ?_, ?_, ?_, ?_, ?_, by dsimp only; omega, ?_⟩
  · rw [hin, List.nodup_append]
    refine ⟨h1, hnd, ?_⟩
    intro n hn hn'
    have := (h2 n hn).2
    have := (hfresh n hn').1
    omega
  · intro n hn
    rw [hin] at hn
    dsimp only
    rcases List.mem_append.mp hn with hn | hn
    · have := h2 n hn
      omega
    · have := hfresh n hn
      omega
  · dsimp only
    rw [List.map_append, List.nodup_append]
    refine ⟨h3, by simp, ?_⟩
    intro a ha hb
    simp only [List.map_cons, List.map_nil, List.mem_singleton] at hb
    obtain ⟨e, he, hea⟩ := List.mem_map.mp ha
    exact lookupImageObj_none_not_key hl e he (hea.trans hb)
  · intro i hi
    dsimp only at hi ⊢
    exact lookupImageObj_isSome_append (h4 i hi)
  · intro e he
    dsimp only at he ⊢
    have := h5 e he
    omega
  · intro p hp
    dsimp only at hp ⊢
    rcases List.mem_append.mp hp with hp | hp
    · exact h6 p hp
    · have hpe : p = (idx, entry) := List.mem_singleton.mp hp
      have hp1 : p.1 = idx := congrArg Prod.fst hpe
      have hp2 : p.2 = entry := congrArg Prod.snd hpe
      have hidx : idx ∉ s.writtenImages := by
        intro hcontra
        have := h4 idx hcontra
        rw [hl] at this
        simp at this
      have hxm : entry.xobject.num ∈ imageEntryNums entry :=
        List.mem_cons_self _ _
      have hge := (hfresh _ hxm).1
      have hz : List.countP (fun e => e.1.num == p.2.xobject.num)
          s.writer.log = 0 := by
        refine List.countP_eq_zero.mpr ?_
        intro e he
        have h5e := h5 e he
        simp only [beq_eq_false_iff_ne, ne_eq, Bool.not_eq_true, beq_iff_eq]
        rw [hp2]
        omega
      rw [hz, hp1, if_neg hidx]
  · intro pg hpg
    dsimp only at hpg
    exact h8 pg hpg

theorem ensureImageObjIds_inv (s : DocState) (idx : ℕ) (h : ImageInv s) :
    ImageInv (ensureImageObjIds s idx) ∧
    ∃ t, (ensureImageObjIds s idx).imageObjIds = s.imageObjIds ++ t ∧
      (ensureImageObjIds s idx).currentPage = s.currentPage := by
  unfold ensureImageObjIds
  by_cases hl : (lookupImageObj s.imageObjIds idx).isSome
  · rw [if_pos hl]
    exact ⟨h, [], by simp, rfl⟩
  · rw [if_neg hl]
    have hln : lookupImageObj s.imageObjIds idx = Option.none := by
      cases hc : lookupImageObj s.imageObjIds idx with
      | none => rfl
      | some p =>
        rw [hc] at hl
        simp at hl
    dsimp only
    generalize (match s.images.get? idx with
      | some img => img.smaskData.isSome
      | Option.none => false) = hasSmask
    cases hasSmask with
    | false =>
      simp only [Bool.false_eq_true, if_false]
      refine ⟨?_, [(idx, ⟨⟨s.nextObjNum, 0⟩, Option.none,
        chars "Im" ++ renderNat s.nextImageNum⟩)], rfl, trivial⟩
      refine ImageInv_allocEntry s idx _ 1 _ (by omega) hln ?_ ?_ h
      · simp [imageEntryNums]
      · intro n hn
        simp [imageEntryNums] at hn
        omega
    | true =>
      rw [if_pos rfl, if_pos rfl]
      refine ⟨?_, [(idx, ⟨⟨s.nextObjNum, 0⟩, some ⟨s.nextObjNum + 1, 0⟩,
        chars "Im" ++ renderNat s.nextImageNum⟩)], rfl, rfl⟩
      refine ImageInv_allocEntry s idx _ 2 _ (by omega) hln ?_ ?_ h
      · simp [imageEntryNums]
      · intro n hn
        simp [imageEntryNums] at hn
        rcases hn with hn | hn <;> omega

theorem ImageInv_placeImage (s : DocState) (idx : ℕ) (rect : Rect)
    (fit : ImageFit) (h : ImageInv s) :
    ImageInv (placeImage s idx rect fit) ∧
    ∃ t, (placeImage s idx rect fit).imageObjIds = s.imageObjIds ++ t := by
  unfold placeImage
  cases hc : s.currentPage with
  | none => exact ⟨h, [], by simp⟩
  | some page =>
    cases himg : s.images.get? idx with
    | none => exact ⟨h, [], by simp⟩
    | some img =>
      dsimp only
      obtain ⟨hi, t, ht, hcp⟩ := ensureImageObjIds_inv s idx h
      obtain ⟨g1, g2, g3, g4, g5, g6, g7, g8⟩ := hi
      refine ⟨⟨g1, g2, g3, g4, g5, g6, g7, ?_⟩, t, ht⟩
      intro pg hpg
      dsimp only at hpg
      injection hpg with hpg
      rw [← hpg]
      exact h.2.2.2.2.2.2.2 page hc

theorem ImageInv_writeFresh2 (s : DocState) (o1 o2 : PdfObject)
    (pageIds : List ObjId) (cp : Option PageBuilder) (pr : List PageRecord)
    (hcp : ∀ page, cp = some page → page.editing = Option.none)
    (h : ImageInv s) :
    ImageInv { s with
      nextObjNum := s.nextObjNum + 2,
      writer := writeObject (writeObject s.writer ⟨s.nextObjNum, 0⟩ o1)
        ⟨s.nextObjNum + 1, 0⟩ o2,
      pageObjIds := pageIds, currentPage := cp, pageRecords := pr } := by
  obtain ⟨h1, h2, h3, h4, h5, h6, h7, h8⟩ := h
  refine ⟨h1, ?_, h3, h4, ?_, ?_, by dsimp only; omega, ?_⟩
  · intro n hn
    dsimp only
    have := h2 n hn
    omega
  · intro e he
    dsimp only at he ⊢
    rw [writeObject_log, writeObject_log, List.append_assoc] at he
    rcases List.mem_append.mp he with he | he
    · have := h5 e he
      omega
    · rcases List.mem_cons.mp he with he | he
      · rw [he]
        dsimp only
        omega
      · rw [List.mem_singleton.mp he]
        dsimp only
        omega
  · intro p hp
    dsimp only at hp ⊢
    rw [writeObject_log, writeObject_log, List.append_assoc,
      List.countP_append]
    have hx : p.2.xobject.num ∈ imageNums s :=
      mem_imageNums_of_entry hp (List.mem_cons_self _ _)
    have hlt := (h2 _ hx).2
    have hz : List.countP (fun e => e.1.num == p.2.xobject.num)
        ([((⟨s.nextObjNum, 0⟩ : ObjId), o1)] ++
         [((⟨s.nextObjNum + 1, 0⟩ : ObjId), o2)]) = 0 := by
      refine List.countP_eq_zero.mpr ?_
      intro e he
      rcases List.mem_cons.mp he with he | he
      · rw [he]
        simp only [beq_eq_false_iff_ne, ne_eq, Bool.not_eq_true, beq_iff_eq]
        omega
      · rw [List.mem_singleton.mp he]
        simp only [beq_eq_false_iff_ne, ne_eq, Bool.not_eq_true, beq_iff_eq]
        omega
    rw [hz, Nat.add_zero]
    exact h6 p hp
  · intro pg hpg
    dsimp only at hpg
    exact hcp pg hpg

theorem ImageInv_writeFresh1 (s : DocState) (obj : PdfObject) (h : ImageInv s) :
    ImageInv { s with
      nextObjNum := s.nextObjNum + 1,
      writer := writeObject s.writer ⟨s.nextObjNum, 0⟩ obj } := by
  obtain ⟨h1, h2, h3, h4, h5, h6, h7, h8⟩ := h
  refine ⟨h1, ?_, h3, h4, ?_, ?_, by dsimp only; omega, ?_⟩
  · intro n hn
    dsimp only
    have := h2 n hn
    omega
  · intro e he
    dsimp only at he ⊢
    rw [writeObject_log] at he
    rcases List.mem_append.mp he with he | he
    · have := h5 e he
      omega
    · rw [List.mem_singleton.mp he]
      dsimp only
      omega
  · intro p hp
    dsimp only at hp ⊢
    rw [writeObject_log, List.countP_append]
    have hx : p.2.xobject.num ∈ imageNums s :=
      mem_imageNums_of_entry hp (List.mem_cons_self _ _)
    have hlt := (h2 _ hx).2
    have hz : List.countP (fun e => e.1.num == p.2.xobject.num)
        [((⟨s.nextObjNum, 0⟩ : ObjId), obj)] = 0 := by
      refine List.countP_eq_zero.mpr ?_
      intro e he
      rw [List.mem_singleton.mp he]
      simp only [beq_eq_false_iff_ne, ne_eq, Bool.not_eq_true, beq_iff_eq]
      omega
    rw [hz, Nat.add_zero]
    exact h6 p hp
  · intro pg hpg
    dsimp only at hpg
    exact h8 pg hpg

theorem ImageInv_writeLow (s : DocState) (obj : PdfObject) (m : ℕ)
    (hm : m < 3) (h : ImageInv s) :
    ImageInv { s with writer := writeObject s.writer ⟨m, 0⟩ obj } := by
  obtain ⟨h1, h2, h3, h4, h5, h6, h7, h8⟩ := h
  refine ⟨h1, h2, h3, h4, ?_, ?_, h7, ?_⟩
  · intro e he
    dsimp only at he ⊢
    rw [writeObject_log] at he
    rcases List.mem_append.mp he with he | he
    · exact h5 e he
    · rw [List.mem_singleton.mp he]
      dsimp only
      omega
  · intro p hp
    dsimp only at hp ⊢
    rw [writeObject_log, List.countP_append]
    have hx : p.2.xobject.num ∈ imageNums s :=
      mem_imageNums_of_entry hp (List.mem_cons_self _ _)
    have hge := (h2 _ hx).1
    have hz : List.countP (fun e => e.1.num == p.2.xobject.num)
        [((⟨m, 0⟩ : ObjId), obj)] = 0 := by
      refine List.countP_eq_zero.mpr ?_
      intro e he
      rw [List.mem_singleton.mp he]
      simp only [beq_eq_false_iff_ne, ne_eq, Bool.not_eq_true, beq_iff_eq]
      omega
    rw [hz, Nat.add_zero]
    exact h6 p hp
  · intro pg hpg
    dsimp only at hpg
    exact h8 pg hpg

theorem ImageInv_xref (s : DocState) (rootId : ObjId) (infoId : Option ObjId)
    (h : ImageInv s) :
    ImageInv { s with writer := writeXrefAndTrailer s.writer rootId infoId } :=
  h

theorem ImageInv_endPageNew (flate : List Char → List Char) (s : DocState)
    (page : PageBuilder) (h : ImageInv s) :
    ImageInv (endPageNew flate s page) ∧
    (endPageNew flate s page).imageObjIds = s.imageObjIds ∧
    (endPageNew flate s page).currentPage = Option.none := by
  unfold endPageNew
  obtain ⟨hf, hf1, hf2, hf3⟩ := fontFold_inv page.usedFonts s h
  obtain ⟨hi, hi1, hi2⟩ :=
    imageFold_inv flate page.usedImages
      (page.usedFonts.foldl (fun acc f => (ensureFontWritten acc f).1) s) hf
  dsimp only
  refine ⟨?_, ?_, rfl⟩
  · exact ImageInv_writeFresh2 _ _ _ _ _ _ (fun pg hpg => by cases hpg) hi
  · exact hi1.trans hf1

theorem ImageInv_endPage (flate : List Char → List Char) (s : DocState)
    (h : ImageInv s) :
    ImageInv (endPage flate s) ∧
    (endPage flate s).imageObjIds = s.imageObjIds ∧
    (endPage flate s).currentPage = Option.none := by
  unfold endPage
  cases hc : s.currentPage with
  | none => exact ⟨h, rfl, hc⟩
  | some page =>
    dsimp only
    rw [h.2.2.2.2.2.2.2 page hc]
    dsimp only
    have hs' : ImageInv { s with currentPage := Option.none } := by
      obtain ⟨h1, h2, h3, h4, h5, h6, h7, h8⟩ := h
      exact ⟨h1, h2, h3, h4, h5, h6, h7, fun pg hpg => by cases hpg⟩
    obtain ⟨ha, hb, hcc⟩ :=
      ImageInv_endPageNew flate { s with currentPage := Option.none } page hs'
    exact ⟨ha, hb, hcc⟩

theorem ImageInv_beginPage (flate : List Char → List Char) (s : DocState)
    (w hh : ℚ) (h : ImageInv s) :
    ImageInv (beginPage flate s w hh) ∧
    (beginPage flate s w hh).imageObjIds = s.imageObjIds := by
  unfold beginPage
  dsimp only
  by_cases hc : s.currentPage.isSome
  · rw [if_pos hc]
    obtain ⟨ha, hb, hcc⟩ := ImageInv_endPage flate s h
    obtain ⟨h1, h2, h3, h4, h5, h6, h7, h8⟩ := ha
    refine ⟨⟨h1, h2, h3, h4, h5, h6, h7, ?_⟩, hb⟩
    intro pg hpg
    dsimp only at hpg
    injection hpg with hpg
    rw [← hpg]
  · rw [if_neg hc]
    obtain ⟨h1, h2, h3, h4, h5, h6, h7, h8⟩ := h
    refine ⟨⟨h1, h2, h3, h4, h5, h6, h7, ?_⟩, rfl⟩
    intro pg hpg
    dsimp only at hpg
    injection hpg with hpg
    rw [← hpg]

set_option maxHeartbeats 1600000 in
theorem ImageInv_endDocument (flate : List Char → List Char) (s : DocState)
    (h : ImageInv s) :
    ImageInv (endDocument flate s) ∧
    (endDocument flate s).imageObjIds = s.imageObjIds := by
  have hs1 : ImageInv (if s.currentPage.isSome then endPage flate s else s) ∧
      (if s.currentPage.isSome then endPage flate s
        else s).imageObjIds = s.imageObjIds := by
    by_cases hc : s.currentPage.isSome
    · rw [if_pos hc]
      exact ⟨(ImageInv_endPage flate s h).1, (ImageInv_endPage flate s h).2.1⟩
    · rw [if_neg hc]
      exact ⟨h, rfl⟩
  obtain ⟨hA, hB⟩ := hs1
  unfold endDocument
  generalize hg : (if s.currentPage.isSome then endPage flate s else s) = s1
  rw [hg] at hA hB
  dsimp only
  by_cases hinfo : ¬s1.info.isEmpty
  · rw [if_pos hinfo]
    dsimp only
    refine ⟨?_, hB⟩
    exact ImageInv_xref ({ s1 with nextObjNum := s1.nextObjNum + 1, writer := writeObject (writeObject (writeObject s1.writer ⟨s1.nextObjNum, 0⟩ (PdfObject.dictionary (PdfDictList.ofList (s1.info.map (fun e => (e.1, PdfObject.literalString e.2)))))) ⟨2, 0⟩ (PdfObject.dictionary (PdfDictList.ofList [(chars "Type", PdfObject.name (chars "Pages")), (chars "Kids", PdfObject.array (PdfObjList.ofList (s1.pageObjIds.map PdfObject.reference))), (chars "Count", PdfObject.integer (s1.pageObjIds.length : ℤ))]))) ⟨1, 0⟩ (PdfObject.dictionary (PdfDictList.ofList [(chars "Type", PdfObject.name (chars "Catalog")), (chars "Pages", PdfObject.reference ⟨2, 0⟩)])) } : DocState) ⟨1, 0⟩ (some ⟨s1.nextObjNum, 0⟩) (ImageInv_writeLow ({ s1 with nextObjNum := s1.nextObjNum + 1, writer := writeObject (writeObject s1.writer ⟨s1.nextObjNum, 0⟩ (PdfObject.dictionary (PdfDictList.ofList (s1.info.map (fun e => (e.1, PdfObject.literalString e.2)))))) ⟨2, 0⟩ (PdfObject.dictionary (PdfDictList.ofList [(chars "Type", PdfObject.name (chars "Pages")), (chars "Kids", PdfObject.array (PdfObjList.ofList (s1.pageObjIds.map PdfObject.reference))), (chars "Count", PdfObject.integer (s1.pageObjIds.length : ℤ))])) } : DocState) (PdfObject.dictionary (PdfDictList.ofList [(chars "Type", PdfObject.name (chars "Catalog")), (chars "Pages", PdfObject.reference ⟨2, 0⟩)])) 1 (by omega) (ImageInv_writeLow ({ s1 with nextObjNum := s1.nextObjNum + 1, writer := writeObject s1.writer ⟨s1.nextObjNum, 0⟩ (PdfObject.dictionary (PdfDictList.ofList (s1.info.map (fun e => (e.1, PdfObject.literalString e.2))))) } : DocState) (PdfObject.dictionary (PdfDictList.ofList [(chars "Type", PdfObject.name (chars "Pages")), (chars "Kids", PdfObject.array (PdfObjList.ofList (s1.pageObjIds.map PdfObject.reference))), (chars "Count", PdfObject.integer (s1.pageObjIds.length : ℤ))])) 2 (by omega) (ImageInv_writeFresh1 s1 (PdfObject.dictionary (PdfDictList.ofList (s1.info.map (fun e => (e.1, PdfObject.literalString e.2))))) hA)))
  · rw [if_neg hinfo]
    dsimp only
    refine ⟨?_, hB⟩
    exact ImageInv_xref ({ s1 with writer := writeObject (writeObject s1.writer ⟨2, 0⟩ (PdfObject.dictionary (PdfDictList.ofList [(chars "Type", PdfObject.name (chars "Pages")), (chars "Kids", PdfObject.array (PdfObjList.ofList (s1.pageObjIds.map PdfObject.reference))), (chars "Count", PdfObject.integer (s1.pageObjIds.length : ℤ))]))) ⟨1, 0⟩ (PdfObject.dictionary (PdfDictList.ofList [(chars "Type", PdfObject.name (chars "Catalog")), (chars "Pages", PdfObject.reference ⟨2, 0⟩)])) } : DocState) ⟨1, 0⟩ Option.none (ImageInv_writeLow ({ s1 with writer := writeObject s1.writer ⟨2, 0⟩ (PdfObject.dictionary (PdfDictList.ofList [(chars "Type", PdfObject.name (chars "Pages")), (chars "Kids", PdfObject.array (PdfObjList.ofList (s1.pageObjIds.map PdfObject.reference))), (chars "Count", PdfObject.integer (s1.pageObjIds.length : ℤ))])) } : DocState) (PdfObject.dictionary (PdfDictList.ofList [(chars "Type", PdfObject.name (chars "Catalog")), (chars "Pages", PdfObject.reference ⟨2, 0⟩)])) 1 (by omega) (ImageInv_writeLow s1 (PdfObject.dictionary (PdfDictList.ofList [(chars "Type", PdfObject.name (chars "Pages")), (chars "Kids", PdfObject.array (PdfObjList.ofList (s1.pageObjIds.map PdfObject.reference))), (chars "Count", PdfObject.integer (s1.pageObjIds.length : ℤ))])) 2 (by omega) hA))

theorem ImageInv_docStep (flate : List Char → List Char) (s : DocState)
    (op : DocOp) (h : ImageInv s) :
    ImageInv (docStep flate s op) ∧
    ∃ t, (docStep flate s op).imageObjIds = s.imageObjIds ++ t := by
  cases op with
  | beginPage w hh =>
    obtain ⟨ha, hb⟩ := ImageInv_beginPage flate s w hh h
    refine ⟨ha, [], ?_⟩
    rw [List.append_nil]
    exact hb
  | endPage =>
    obtain ⟨ha, hb, -⟩ := ImageInv_endPage flate s h
    refine ⟨ha, [], ?_⟩
    rw [List.append_nil]
    exact hb
  | endDocument =>
    obtain ⟨ha, hb⟩ := ImageInv_endDocument flate s h
    refine ⟨ha, [], ?_⟩
    rw [List.append_nil]
    exact hb
  | setCompression b =>
    exact ⟨ImageInv_setCompression s b h, [], (List.append_nil _).symm⟩
  | loadImage img =>
    exact ⟨ImageInv_loadImage s img h, [], (List.append_nil _).symm⟩
  | placeImage idx rect fit =>
    obtain ⟨ha, t, ht⟩ := ImageInv_placeImage s idx rect fit h
    exact ⟨ha, t, ht⟩
  | placeText text x y =>
    refine ⟨ImageInv_placeText s text x y h, [], ?_⟩
    rw [List.append_nil]
    show (placeText s text x y).imageObjIds = s.imageObjIds
    unfold placeText
    cases s.currentPage <;> rfl

theorem ImageInv_docRun (flate : List Char → List Char) (ops : List DocOp) :
    ∀ (s : DocState), ImageInv s →
      ImageInv (docRun flate s ops) ∧
      ∃ t, (docRun flate s ops).imageObjIds = s.imageObjIds ++ t := by
  induction ops with
  | nil =>
    intro s h
    exact ⟨h, [], (List.append_nil _).symm⟩
  | cons op rest ih =>
    intro s h
    obtain ⟨ha, t1, ht1⟩ := ImageInv_docStep flate s op h
    obtain ⟨hb, t2, ht2⟩ := ih _ ha
    refine ⟨hb, t1 ++ t2, ?_⟩
    rw [show docRun flate s (op :: rest) =
      docRun flate (docStep flate s op) rest from rfl]
    rw [ht2, ht1, List.append_assoc]

theorem ImageInv_docInit : ImageInv docInit := by
  refine ⟨?_, ?_, ?_, ?_, ?_, ?_, ?_, ?_⟩ <;>
    simp [docInit, imageNums, headerState, writeHeader, writeBytes, initWriter]

/-- C8: `load_image_bytes` always returns a fresh handle — the current
image count, which the call increments, so N loads of the same bytes give
N distinct handles; in any state reachable from a fresh document, the
writer log holds exactly one object at a written image's XObject number
and none for an unwritten one (one stream per placed image, written by
the first `end_page` that uses it); `write_image_xobject` is a no-op on
an already-written handle; and a handle's assigned object id and resource
name never change under further operations, so every page that places the
handle references the same XObject object id under the same name. -/
theorem C8_image_dedup (flate : List Char → List Char) (ops : List DocOp) :
    (∀ (s : DocState) (img : ImageData),
      (loadImageBytes s img).2 = s.images.length ∧
      (loadImageBytes s img).1.images.length = s.images.length + 1) ∧
    (∀ (i : ℕ) (p : ImageObjIds),
      lookupImageObj (docRun flate docInit ops).imageObjIds i = some p →
      ((i ∈ (docRun flate docInit ops).writtenImages →
        (docRun flate docInit ops).writer.log.countP
          (fun e => e.1.num == p.xobject.num) = 1) ∧
       (i ∉ (docRun flate docInit ops).writtenImages →
        (docRun flate docInit ops).writer.log.countP
          (fun e => e.1.num == p.xobject.num) = 0))) ∧
    (∀ (i : ℕ), i ∈ (docRun flate docInit ops).writtenImages →
      writeImageXObject flate (docRun flate docInit ops) i =
        docRun flate docInit ops) ∧
    (∀ (more : List DocOp) (i : ℕ) (p : ImageObjIds),
      lookupImageObj (docRun flate docInit ops).imageObjIds i = some p →
      lookupImageObj
        (docRun flate (docRun flate docInit ops) more).imageObjIds i =
        some p) := by
  obtain ⟨hinv, t, ht⟩ := ImageInv_docRun flate ops docInit ImageInv_docInit
  refine ⟨?_, ?_, ?_, ?_⟩
  · intro s img
    exact ⟨rfl, by simp [loadImageBytes]⟩
  · intro i p hl
    have h6 := hinv.2.2.2.2.2.1 (i, p) (lookupImageObj_mem hl)
    constructor
    · intro hw
      rw [if_pos hw] at h6
      exact h6
    · intro hw
      rw [if_neg hw] at h6
      exact h6
  · intro i hw
    unfold writeImageXObject
    rw [if_pos hw]
  · intro more i p hl
    obtain ⟨hinv2, t2, ht2⟩ :=
      ImageInv_docRun flate more (docRun flate docInit ops) hinv
    rw [ht2]
    exact lookupImageObj_append hl

/-- C8 witness: a 1x1 PNG loaded once (handle 0 = the prior image count)
and placed on two pages; the finished trace's log holds exactly one
object at its XObject number 3, and a later page still resolves handle 0
to the same object id and resource name. -/
theorem C8_image_dedup_witness :
    (loadImageBytes docInit
      ⟨1, 1, ImageFormat.png, ColorSpace.deviceRGB, 8, chars "x",
        Option.none⟩).2 = 0 ∧
    (docRun (fun d => d) docInit
      [DocOp.beginPage 612 792,
       DocOp.loadImage ⟨1, 1, ImageFormat.png, ColorSpace.deviceRGB, 8,
         chars "x", Option.none⟩,
       DocOp.placeImage 0 ⟨0, 100, 50, 50⟩ ImageFit.stretch,
       DocOp.endPage,
       DocOp.beginPage 612 792,
       DocOp.placeImage 0 ⟨0, 100, 50, 50⟩ ImageFit.stretch,
       DocOp.endPage]).writer.log.countP (fun e => e.1.num == 3) = 1 ∧
    lookupImageObj (docRun (fun d => d)
      (docRun (fun d => d) docInit
        [DocOp.beginPage 612 792,
         DocOp.loadImage ⟨1, 1, ImageFormat.png, ColorSpace.deviceRGB, 8,
           chars "x", Option.none⟩,
         DocOp.placeImage 0 ⟨0, 100, 50, 50⟩ ImageFit.stretch,
         DocOp.endPage,
         DocOp.beginPage 612 792,
         DocOp.placeImage 0 ⟨0, 100, 50, 50⟩ ImageFit.stretch,
         DocOp.endPage])
      [DocOp.beginPage 612 792,
       DocOp.placeImage 0 ⟨0, 100, 50, 50⟩ ImageFit.stretch,
       DocOp.endPage]).imageObjIds 0 =
      some ⟨⟨3, 0⟩, Option.none, chars "Im" ++ renderNat 1⟩ := by
  have h := C8_image_dedup (fun d => d)
    [DocOp.beginPage 612 792,
     DocOp.loadImage ⟨1, 1, ImageFormat.png, ColorSpace.deviceRGB, 8,
       chars "x", Option.none⟩,
     DocOp.placeImage 0 ⟨0, 100, 50, 50⟩ ImageFit.stretch,
     DocOp.endPage,
     DocOp.beginPage 612 792,
     DocOp.placeImage 0 ⟨0, 100, 50, 50⟩ ImageFit.stretch,
     DocOp.endPage]
  refine ⟨?_, ?_, ?_⟩
  · exact (h.1 docInit ⟨1, 1, ImageFormat.png, ColorSpace.deviceRGB, 8,
      chars "x", Option.none⟩).1
  · exact (h.2.1 0 ⟨⟨3, 0⟩, Option.none, chars "Im" ++ renderNat 1⟩ rfl).1
      (by decide)
  · exact h.2.2.2
      [DocOp.beginPage 612 792,
       DocOp.placeImage 0 ⟨0, 100, 50, 50⟩ ImageFit.stretch,
       DocOp.endPage]
      0 ⟨⟨3, 0⟩, Option.none, chars "Im" ++ renderNat 1⟩ rfl

end PivotPdf
